import Mathlib

/-!
# Verification of the obsidian-jira-sync note/tracker reconciliation engine

Shallow embedding of the repository's text model, entity model, diff engine
and caches.  JavaScript strings are modelled as `List Char` (named `Text`);
JavaScript `string | undefined` fields are `Option Text`, so that `undefined`
(`none`) is distinct from the empty string (`some []`), matching `===`
equality.  Each regular expression of the source is translated into an
explicit, executable function on `Text`, documented at its definition.
-/

namespace ObsidianSync

/-- A JavaScript string, modelled as its list of characters. -/
abbrev Text := List Char

/-- Whitespace as matched by the JavaScript `\s` class (ASCII part; the
source only ever deals in spaces, tabs, newlines and carriage returns). -/
def isWs (c : Char) : Bool := c = ' ' || c = '\t' || c = '\n' || c = '\r'

/-- Word characters as matched by the JavaScript `\w` class
(`[A-Za-z0-9_]`). -/
def isWordChar (c : Char) : Bool := c.isAlpha || c.isDigit || c = '_'

/-- JavaScript truthiness of a `string | undefined` value: `undefined` and
the empty string are falsy. -/
def truthyS : Option Text → Bool
  | some (_ :: _) => true
  | _ => false

/-- Splits a text at every newline character, as JavaScript
`text.split("\n")` does; always returns at least one fragment. -/
def splitNl (t : Text) : List Text :=
  t.foldr
    (fun c acc =>
      if c = '\n' then [] :: acc
      else
        match acc with
        | a :: as => (c :: a) :: as
        | [] => [[c]])
    [[]]

/-- Joins fragments with a single newline between consecutive fragments, as
JavaScript `lines.join("\n")` does. -/
def joinNl : List Text → Text
  | [] => []
  | [x] => x
  | x :: xs => x ++ '\n' :: joinNl xs

/-- Joins fragments with single spaces, as JavaScript `parts.join(" ")`
does. -/
def joinSpace : List Text → Text
  | [] => []
  | [x] => x
  | x :: xs => x ++ ' ' :: joinSpace xs

/-- JavaScript `String.prototype.trim`: strips leading and trailing
whitespace. -/
def trim (t : Text) : Text :=
  ((t.dropWhile isWs).reverse.dropWhile isWs).reverse

/-- First index at or after `start` where `sub` occurs in `s`, or `-1`,
as JavaScript `s.indexOf(sub, start)` for a non-empty `sub`. -/
def jsIndexOfFrom (s sub : Text) (start : Nat) : Int :=
  let rec go : Nat → Text → Int
    | _, [] => -1
    | i, c :: cs => if sub.isPrefixOf (c :: cs) then (i : Int) else go (i + 1) cs
  if sub.isPrefixOf (s.drop start) then (start : Int) else go (start + 1) (s.drop (start + 1))

/-- Does `sub` occur as a contiguous substring of `s`? -/
def hasSub (s sub : Text) : Bool :=
  decide (sub <:+: s)

/-- Translation of `src/util.ts`'s `nthIndex(str, substr, n)`: the index of
the `n`-th occurrence of `substr` (successive searches starting one past the
previous hit), `-1` when there is no such occurrence or `n = 0`.  The
source's `i++ < L` guard can only fail for an empty `substr`, which the
repository never passes, so it is not modelled. -/
def nthIndex (str substr : Text) (n : Nat) : Int :=
  let rec go : Nat → Int → Int
    | 0, i => i
    | k + 1, i =>
      let p := jsIndexOfFrom str substr (i + 1).toNat
      if p < 0 then -1 else go k p
  go n (-1)

/-! ## Entity model (`src/issues/types.ts`) -/

/-- Issue/milestone state, `"open" | "closed"`. -/
inductive Status where
  | open'
  | closed
deriving DecidableEq, Repr

/-- Reason attached to a closed issue. -/
inductive StatusReason where
  | completed
  | not_planned
  | reopened
deriving DecidableEq, Repr

/-- An issue record.  The TypeScript declarations type `id` and `title` as
`string`, but the parser can construct issues with either field
`undefined`, so both are modelled as `Option Text`. -/
structure Issue where
  id : Option Text
  title : Option Text
  description : Option Text := none
  status : Option Status := none
  statusReason : Option StatusReason := none
  milestoneId : Option Text := none
  projectId : Option Text := none
deriving DecidableEq, Repr

/-- `Issue.equals`: field-by-field `===` comparison of all seven fields. -/
def Issue.equals (a b : Issue) : Bool :=
  a.id == b.id && a.title == b.title && a.description == b.description &&
    a.status == b.status && a.statusReason == b.statusReason &&
    a.milestoneId == b.milestoneId && a.projectId == b.projectId

/-- A milestone record. -/
structure Milestone where
  id : Option Text
  title : Option Text
  description : Option Text := none
  status : Option Status := none
deriving DecidableEq, Repr

/-- `Milestone.equals`: field-by-field `===` comparison. -/
def Milestone.equals (a b : Milestone) : Bool :=
  a.id == b.id && a.title == b.title && a.description == b.description &&
    a.status == b.status

/-- A project record. -/
structure Project where
  id : Option Text := none
  number : Option Int := none
  title : Option Text := none
  description : Option Text := none
  status : Option Status := none
deriving DecidableEq, Repr

/-- `Project.equals`: field-by-field `===` comparison. -/
def Project.equals (a b : Project) : Bool :=
  a.id == b.id && a.number == b.number && a.title == b.title &&
    a.description == b.description && a.status == b.status

/-! ## IssueCache (`src/IssueCache.ts`)

The cache's `state: Issue[]` is a list; methods that `throw` are modelled
as returning `none`, which leaves the caller's state untouched exactly as
an exception thrown before any mutation does. -/

namespace IssueCache

/-- `IssueCache.update(data)`: locate the first entry whose `id` is
`data.id`; throw (`none`) when there is none, otherwise replace that entry
with `data` and return the previous entry together with the new state. -/
def update (state : List Issue) (data : Issue) : Option (List Issue × Issue) :=
  match state.findIdx? (fun i => i.id == data.id) with
  | none => none
  | some index => (state[index]?).map (fun prev => (state.set index data, prev))

/-- `IssueCache.remove(id)`: locate the first entry whose `id` is the given
string; throw (`none`) when there is none, otherwise splice it out. -/
def remove (state : List Issue) (id : Text) : Option (List Issue) :=
  match state.findIdx? (fun i => i.id == some id) with
  | none => none
  | some index => some (state.eraseIdx index)

end IssueCache

/-! ## Notes and the front-matter model

A note is its filename plus its full text (`CachedNote` in
`src/markdown/note.ts`).  The `front-matter` npm package and Obsidian's
`stringifyYaml` are external libraries; they are modelled here on the flat
`key: value` property layout the repository actually uses (every property
value is a plain scalar string, serialized as `key: value` on one line). -/

/-- A note: filename and full text content. -/
structure Note where
  filename : Text
  content : Text
deriving DecidableEq, Repr

/-- Splits `l` at the first occurrence of `sub`, returning the parts before
and after it, or `none` when `sub` does not occur. -/
def splitAtSub (sub : Text) : Text → Option (Text × Text)
  | [] => none
  | c :: cs =>
    if sub.isPrefixOf (c :: cs) then some ([], (c :: cs).drop sub.length)
    else (splitAtSub sub cs).map (fun p => (c :: p.1, p.2))

/-- One flat YAML line `key: value`, split at the first `": "`. -/
def parseYamlLine (l : Text) : Option (Text × Text) := splitAtSub (':' :: [' ']) l

/-- Sets key `k` to `v` in a JavaScript-object-like association list:
an existing key keeps its position, a new key is appended. -/
def objSet (o : List (Text × Text)) (k v : Text) : List (Text × Text) :=
  if o.any (fun p => p.1 == k) then o.map (fun p => if p.1 == k then (k, v) else p)
  else o ++ [(k, v)]

/-- Builds the attribute object from the YAML lines of a front-matter
block; lines without a `": "` separator are ignored, later duplicate keys
overwrite earlier ones (JavaScript object semantics). -/
def parseYamlLines (ls : List Text) : List (Text × Text) :=
  ls.foldl (fun o l => match parseYamlLine l with | some (k, v) => objSet o k v | none => o) []

/-- The flat-property model of the `front-matter` package: when the text
starts with `---\n` and a later line is exactly `---`, the lines between
are the attributes and `bodyBegin` is the 1-based number of the first line
after the closing delimiter; otherwise there are no attributes and
`bodyBegin` is 1. -/
def frontMatterParse (t : Text) : List (Text × Text) × Nat :=
  if ("---\n".data).isPrefixOf t then
    let ls := splitNl t
    match (ls.drop 1).findIdx? (fun l => l == ("---".data)) with
    | some k => (parseYamlLines ((ls.drop 1).take k), k + 3)
    | none => ([], 1)
  else ([], 1)

/-- `AbstractNote.properties`: the front-matter attributes of the text. -/
def properties (t : Text) : List (Text × Text) := (frontMatterParse t).1

/-- Looks a key up in an attribute object. -/
def lookupProp (ps : List (Text × Text)) (k : Text) : Option Text :=
  (ps.find? (fun p => p.1 == k)).map (fun p => p.2)

/-- `AbstractNote.property(name)`. -/
def property (n : Note) (name : Text) : Option Text := lookupProp (properties n.content) name

/-- The body of a note as delimited by its front-matter block: the text
from `bodyBegin` on (the whole text when there is no block).  Used to state
frame properties about property writes. -/
def bodyText (t : Text) : Text :=
  joinNl ((splitNl t).drop ((frontMatterParse t).2 - 1))

/-- The flat-property model of Obsidian's `stringifyYaml` (no trailing
newline; each property on its own `key: value` line). -/
def yamlStringify (props : List (Text × Text)) : Text :=
  joinNl (props.map (fun p => p.1 ++ ':' :: ' ' :: p.2))

/-- Lodash `merge({}, oldProps, newProps)` on flat string properties:
existing keys are overwritten in place, new keys appended. -/
def mergeProps (old new : List (Text × Text)) : List (Text × Text) :=
  new.foldl (fun o p => objSet o p.1 p.2) old

/-- `AbstractNote.setProperties(newProps)`: merge into the existing
attributes, re-serialize the front matter, and append the text following
the first occurrence of `---` at index ≥ 3 (the source's
`content.indexOf("---", 3) + 3`; when no occurrence exists the source
computes `-1 + 3 = 2` and slices from index 2, modelled faithfully). -/
def setProperties (t : Text) (newProps : List (Text × Text)) : Text :=
  let props := mergeProps (properties t) newProps
  let newFrontMatter := "---\n".data ++ yamlStringify props ++ "\n---".data
  let contentStart := jsIndexOfFrom t ("---".data) 3 + 3
  newFrontMatter ++ '\n' :: t.drop contentStart.toNat

/-! ## Sections and the head section -/

/-- A line matching `^#+ ` (at least one `#` followed by a space). -/
def isHashSpaceLine (l : Text) : Bool :=
  !(l.takeWhile (fun c => c == '#')).isEmpty && (l.dropWhile (fun c => c == '#')).head? == some ' '

/-- A line matching `^#+ {heading}$` for a literal heading. -/
def isHeadingLine (h : Text) (l : Text) : Bool :=
  !(l.takeWhile (fun c => c == '#')).isEmpty && (l.dropWhile (fun c => c == '#')) == ' ' :: h

/-- Finds the first line satisfying `p`, returning its character offset in
the text together with the line. -/
def findLineOffsetAux (p : Text → Bool) : List Text → Nat → Option (Nat × Text)
  | [], _ => none
  | l :: rest, off => if p l then some (off, l) else findLineOffsetAux p rest (off + l.length + 1)

/-- Character offset of the first line satisfying `p`, with the line. -/
def findLineOffset (t : Text) (p : Text → Bool) : Option (Nat × Text) :=
  findLineOffsetAux p (splitNl t) 0

/-- Character offset of the first match of the multiline regex `^#+ `. -/
def findHashSpaceOffset (t : Text) : Option Nat :=
  (findLineOffset t isHashSpaceLine).map (fun q => q.1)

/-- `AbstractNote.getSection(heading)`: the text strictly between the first
line matching `^#+ {heading}$` and the next line matching `^#+ ` (or the
end of the text), trimmed; `none` when the heading is absent.  The source
works with raw character offsets; on the slice between the end of the
heading line and the start of the next heading line this is the join of
the intervening lines up to the outer whitespace removed by `trim`. -/
def getSection (t : Text) (h : Text) : Option Text :=
  let ls := splitNl t
  match ls.findIdx? (isHeadingLine h) with
  | none => none
  | some i =>
    some (trim (joinNl ((ls.drop (i + 1)).takeWhile (fun l => !isHashSpaceLine l))))

/-- `AbstractNote.writeSection(heading, content)`: when a line `^## {heading}$`
exists, the source writes `slice(0, start)` (text up to the end of the
heading line) followed by `\n\n{content}\n\n` — the computed `end` of the
old body is never used, so everything after the heading is dropped;
otherwise trailing newlines are stripped and `\n\n## {heading}\n\n{content}`
is appended. -/
def writeSection (t : Text) (h : Text) (content : Text) : Text :=
  match findLineOffset t (fun l => l == '#' :: '#' :: ' ' :: h) with
  | some (off, line) => (t.take (off + line.length)) ++ '\n' :: '\n' :: content ++ ['\n', '\n']
  | none =>
    (t.reverse.dropWhile (fun c => c == '\n')).reverse
      ++ '\n' :: '\n' :: '#' :: '#' :: ' ' :: h ++ '\n' :: '\n' :: content

/-- `AbstractNote.getHeadSectionIndexes(content)`: start is the character
offset just after the front-matter block (0 when there is none), computed
via `nthIndex(content, "\n", bodyBegin - 1) + 1`; end is the offset of the
first line matching `^#+ ` (or `none`).  The source's `frontMatterEnd == -1`
comparison can never hold (`nthIndex` returns at least `-1`, so the sum is
at least 0) and is kept as the dead branch it is. -/
def getHeadSectionIndexes (content : Text) : Nat × Option Nat :=
  let bodyBegin := (frontMatterParse content).2
  let frontMatterEnd := nthIndex content ("\n".data) (bodyBegin - 1) + 1
  let start := if frontMatterEnd == (-1 : Int) then 0 else frontMatterEnd.toNat
  (start, findHashSpaceOffset content)

/-- `AbstractNote.getHeadSection()`: the slice between those indexes,
trimmed. -/
def getHeadSection (content : Text) : Text :=
  let se := getHeadSectionIndexes content
  match se.2 with
  | some e => trim (((content.take e).drop se.1))
  | none => trim (content.drop se.1)

/-- `AbstractNote.setHeadSection(content)`: when no line matches `^#+ `,
the whole text is replaced by `content`; otherwise `content` is written
followed by the text from the first heading line on (everything before the
first heading, front matter included, is discarded). -/
def setHeadSection (t : Text) (content : Text) : Text :=
  match findHashSpaceOffset t with
  | none => content
  | some k => content ++ t.drop k

/-! ## Tracked entities -/

/-- `AbstractNote.getTrackedType()`: the `mission.type` property. -/
def getTrackedType (n : Note) : Option Text := property n ("mission.type".data)

/-- Replaces the first occurrence of `sub` in `t` by `repl`, as JavaScript
`t.replace(sub, repl)` with a string pattern. -/
def replaceFirstSub (sub repl : Text) : Text → Text
  | [] => []
  | c :: cs =>
    if sub.isPrefixOf (c :: cs) then repl ++ (c :: cs).drop sub.length
    else c :: replaceFirstSub sub repl cs

/-- `AbstractNote.getTrackedName()`: the `mission.title` property, or the
filename with its first `.md` removed when the property is absent or
empty. -/
def getTrackedName (n : Note) : Text :=
  match property n ("mission.title".data) with
  | some t => if t.isEmpty then replaceFirstSub (".md".data) [] n.filename else t
  | none => replaceFirstSub (".md".data) [] n.filename

/-- `AbstractNote.getTrackedId()`: the `mission.id` property. -/
def getTrackedId (n : Note) : Option Text := property n ("mission.id".data)

/-- `AbstractNote.getTrackedMilestone()`: only when `mission.type` is
`milestone` and `mission.id` is present and non-empty; the description is
the head section (always a string, so never `undefined`). -/
def getTrackedMilestone (n : Note) : Option Milestone :=
  if getTrackedType n == some ("milestone".data) then
    match getTrackedId n with
    | none => none
    | some id =>
      if id.isEmpty then none
      else some { id := some id, title := some (getTrackedName n),
                  description := some (getHeadSection n.content), status := none }
  else none

/-- `AbstractNote.getTrackedProject()`: only when `mission.type` is
`project`; unlike the milestone case the id is passed through unchecked
(it may be `undefined`). -/
def getTrackedProject (n : Note) : Option Project :=
  if getTrackedType n == some ("project".data) then
    some { id := getTrackedId n, number := none, title := some (getTrackedName n),
           description := some (getHeadSection n.content), status := none }
  else none

/-! ## Issue-list parsing (`AbstractNote.getIssues`) -/

/-- Test of `/^- \S+/`: the line starts with `- ` followed by a
non-whitespace character. -/
def testIssueLine (l : Text) : Bool :=
  match l with
  | '-' :: ' ' :: c :: _ => !isWs c
  | _ => false

/-- The suffix of `l` after the first occurrence of `c`, if any. -/
def afterFirst (c : Char) : Text → Option Text
  | [] => none
  | x :: xs => if x = c then some xs else afterFirst c xs

/-- Capture of `/\((.*)\)$/`: when the line ends with `)`, everything
between the first `(` and that final `)` (the regex matches from the
leftmost `(`, and `\)$` forces the closing paren to be the last
character). -/
def extractId (l : Text) : Option Text :=
  if l.getLast? == some ')' then (afterFirst '(' l).map (fun s => s.dropLast) else none

/-- `line.replace(/\s*\(\w+\)$/, "")`: strips a final parenthesized run of
word characters together with the whitespace before it; the line is
unchanged when the suffix does not have that exact shape. -/
def stripIdSuffix (l : Text) : Text :=
  match l.reverse with
  | ')' :: rest =>
    let w := rest.takeWhile isWordChar
    let r2 := rest.dropWhile isWordChar
    if !w.isEmpty && r2.head? == some '(' then ((r2.tail).dropWhile isWs).reverse
    else l
  | _ => l

/-- Captures of `/^- (?:\[(x| )\]\s*)?(.*)\s*$/`: the optional checkbox
mark and the title.  The greedy `(.*)` takes the whole remainder (the
trailing `\s*` matches the empty string), the checkbox group consumes any
whitespace after `]`, and a line not starting with `- ` does not match,
leaving both captures `undefined`. -/
def parseIssueLine (l : Text) : Option Char × Option Text :=
  match l with
  | '-' :: ' ' :: '[' :: 'x' :: ']' :: r2 => (some 'x', some (r2.dropWhile isWs))
  | '-' :: ' ' :: '[' :: ' ' :: ']' :: r2 => (some ' ', some (r2.dropWhile isWs))
  | '-' :: ' ' :: rest => (none, some rest)
  | _ => (none, none)

/-- Test of `/^\s+- \S.+/`: leading whitespace, `- `, then a non-whitespace
character followed by at least one more character. -/
def testDescLine (l : Text) : Bool :=
  !(l.takeWhile isWs).isEmpty &&
    (match l.dropWhile isWs with
     | '-' :: ' ' :: c :: _ :: _ => !isWs c
     | _ => false)

/-- Capture of `/^\s+- (\S.+)/`: the text after the indented bullet. -/
def extractDesc (l : Text) : Text := (l.dropWhile isWs).drop 2

/-- Test of `!line || /^\s/.test(line)`: empty line or a line starting
with whitespace. -/
def isContLine (l : Text) : Bool :=
  match l with
  | [] => true
  | c :: _ => isWs c

/-- One step of `getIssues`'s per-line scanner, on the reversed
accumulator (head = most recently started issue): an issue line pushes a
new issue (extracting an `(id)` suffix and checkbox state), an indented
bullet sets the current issue's description, and a blank or indented line
while a description is being accumulated appends to it. -/
def stepLine (acc : List Issue) (line : Text) : List Issue :=
  if testIssueLine line then
    let idO := extractId line
    let line2 := if truthyS idO then stripIdSuffix line else line
    let parsed := parseIssueLine line2
    { id := idO, title := parsed.2,
      status := some (if parsed.1 == some 'x' then Status.closed else Status.open') } :: acc
  else
    match acc with
    | [] => []
    | cur :: rest =>
      if testDescLine line then { cur with description := some (extractDesc line) } :: rest
      else if truthyS cur.description && isContLine line then
        { cur with
          description := cur.description.map (fun d => d ++ '\n' :: line.dropWhile isWs) } :: rest
      else cur :: rest

/-- `AbstractNote.getIssues()`: parse the `Issues` section line by line,
then trim each description and stamp every issue with the tracked
milestone's and project's ids. -/
def getIssues (n : Note) : List Issue :=
  match getSection n.content ("Issues".data) with
  | none => []
  | some sec =>
    if sec.isEmpty then []
    else
      let parsed := ((splitNl sec).foldl stepLine []).reverse
      let m := getTrackedMilestone n
      let p := getTrackedProject n
      parsed.map (fun i =>
        { i with description := i.description.map trim,
                 milestoneId := m.bind (fun x => x.id),
                 projectId := p.bind (fun x => x.id) })

/-! ## setIdOnIssue -/

/-- Greedy match of `\s*{title}\s*$` against `rest` (title taken
literally, as the source escapes it): the `\s*` consumes as much leading
whitespace as still lets the literal title and a trailing whitespace run
match, backtracking from the longest run.  Returns the consumed prefix
together with the title (the part of capture group 1 drawn from `rest`). -/
def greedyWsTitle (title rest : Text) : Option Text :=
  let rec go : Nat → Option Text
    | 0 =>
      if title.isPrefixOf rest && (rest.drop title.length).all isWs then some title else none
    | k + 1 =>
      if title.isPrefixOf (rest.drop (k + 1)) &&
          ((rest.drop (k + 1)).drop title.length).all isWs then
        some (rest.take (k + 1) ++ title)
      else go k
  go (rest.takeWhile isWs).length

/-- Capture group 1 of `/^(- (?:\[(x| )\])?\s*{title})\s*$/` against a
single line: `- `, an optional literal checkbox (tried first, with
backtracking to the group-absent alternative), whitespace, the literal
title; the rest of the line must be whitespace. -/
def matchSetId (title l : Text) : Option Text :=
  match l with
  | '-' :: ' ' :: rest =>
    let attempt1 : Option Text :=
      match rest with
      | '[' :: 'x' :: ']' :: r2 =>
        (greedyWsTitle title r2).map (fun g => '-' :: ' ' :: '[' :: 'x' :: ']' :: g)
      | '[' :: ' ' :: ']' :: r2 =>
        (greedyWsTitle title r2).map (fun g => '-' :: ' ' :: '[' :: ' ' :: ']' :: g)
      | _ => none
    match attempt1 with
    | some g => some g
    | none => (greedyWsTitle title rest).map (fun g => '-' :: ' ' :: g)
  | _ => none

/-- `AbstractNote.setIdOnIssue(title, id)` via `replaceLine`: the first
line matching the pattern is replaced by `$1 ({id})`; `none` models the
thrown `line not found` error. -/
def setIdOnIssue (t title id : Text) : Option Text :=
  let ls := splitNl t
  match ls.findIdx? (fun l => (matchSetId title l).isSome) with
  | none => none
  | some i =>
    match matchSetId title (ls.getD i []) with
    | some g1 => some (joinNl (ls.set i (g1 ++ ' ' :: '(' :: id ++ [')'])))
    | none => none

/-! ## Diff engine (`GithubSyncPlugin`) -/

/-- `Diff<T>`: added/removed/changed buckets. -/
structure Diff (α : Type) where
  added : List α
  removed : List α
  changed : List (α × α)
deriving DecidableEq, Repr

/-- `GithubSyncPlugin.milestoneDiff(before, after)`. -/
def milestoneDiff (before after : Note) : Diff Milestone :=
  let b := getTrackedMilestone before
  let a := getTrackedMilestone after
  { added := match b, a with | none, some m => [m] | _, _ => []
    removed := match b, a with | some m, none => [m] | _, _ => []
    changed :=
      match b, a with
      | some mb, some ma => if !mb.equals ma then [(mb, ma)] else []
      | _, _ => [] }

/-- Truthiness of `project?.id` for an optional project. -/
def truthyProjId (p : Option Project) : Bool :=
  match p with
  | some q => truthyS q.id
  | none => false

/-- `GithubSyncPlugin.projectDiff(before, after)`: the guards test
`beforeProject?.id` (truthiness of the id), not mere presence of the
project. -/
def projectDiff (before after : Note) : Diff Project :=
  let b := getTrackedProject before
  let a := getTrackedProject after
  { added :=
      match a with
      | some pa => if !truthyProjId b then [pa] else []
      | none => []
    removed :=
      match b, a with
      | some pb, none => if truthyS pb.id then [pb] else []
      | _, _ => []
    changed :=
      match b, a with
      | some pb, some pa => if truthyS pb.id && !pb.equals pa then [(pb, pa)] else []
      | _, _ => [] }

/-- The body of `GithubSyncPlugin.issuesDiff` on the two parsed issue
lists: `added` filters after-issues with falsy id, `removed` is lodash
`differenceBy(before, after, "id")`, and `changed` chains
filter(has id) → map(pair with the first before-issue of the same id when
not equal) → compact. -/
def issuesDiffL (beforeIssues afterIssues : List Issue) : Diff Issue :=
  { added := afterIssues.filter (fun i => !truthyS i.id)
    removed := beforeIssues.filter (fun b => !(afterIssues.any (fun a => a.id == b.id)))
    changed :=
      (afterIssues.filter (fun i => truthyS i.id)).filterMap (fun issue =>
        match beforeIssues.find? (fun b => b.id == issue.id) with
        | some b => if !b.equals issue then some (b, issue) else none
        | none => none) }

/-- `GithubSyncPlugin.issuesDiff(before, after)`. -/
def issuesDiff (before after : Note) : Diff Issue :=
  issuesDiffL (getIssues before) (getIssues after)

/-- The note-cache update after the diff step of
`GithubSyncPlugin.onChanged`: when any issue or any milestone was
classified as added the entry for the path is deleted, otherwise it is set
to the current text.  (The project diff is not consulted by the source.)
The cache is modelled as a map from paths to texts. -/
def onChangedCacheUpdate (noteCache : Text → Option Text) (path content : Text)
    (iDiff : Diff Issue) (mDiff : Diff Milestone) : Text → Option Text :=
  if !iDiff.added.isEmpty || !mDiff.added.isEmpty then
    fun p => if p == path then none else noteCache p
  else
    fun p => if p == path then some content else noteCache p

/-! ## Command-triggered fetch (`GithubSyncPlugin.fetchIssues`) -/

/-- The status string `i.status ?? "open"` used by the fetch sort. -/
def statusTextOf (i : Issue) : Text :=
  match i.status with
  | some Status.closed => "closed".data
  | _ => "open".data

/-- Lexicographic strict order on texts; `localeCompare` agrees with it in
sign on the plain ASCII words compared here. -/
def lexLtT : Text → Text → Bool
  | [], [] => false
  | [], _ :: _ => true
  | _ :: _, [] => false
  | a :: as, b :: bs => if a < b then true else if a = b then lexLtT as bs else false

/-- Sign model of `a.localeCompare(b)` for plain ASCII words. -/
def jsLocaleCompare (a b : Text) : Int :=
  if lexLtT a b then -1 else if a == b then 0 else 1

/-- The comparator of `fetchIssues`'s sort:
`-(a.status ?? "open").localeCompare(b.status ?? "open")`. -/
def fetchSortCmp (a b : Issue) : Int :=
  -(jsLocaleCompare (statusTextOf a) (statusTextOf b))

/-- Stable insertion with respect to a comparator: `x` is placed before
the first element it strictly precedes. -/
def insertCmp (cmp : Issue → Issue → Int) (x : Issue) : List Issue → List Issue
  | [] => [x]
  | y :: ys => if cmp x y < 0 then x :: y :: ys else y :: insertCmp cmp x ys

/-- Stable comparator sort, the behaviour of `Array.prototype.sort` with a
consistent comparator (ECMAScript mandates a stable sort, and any stable
sort agrees with stable insertion on a total preorder). -/
def jsSortStable (cmp : Issue → Issue → Int) (l : List Issue) : List Issue :=
  l.foldl (fun acc x => insertCmp cmp x acc) []

/-- The sorted order `fetchIssues` renders: descending by status text. -/
def sortIssuesForFetch (issues : List Issue) : List Issue :=
  jsSortStable fetchSortCmp issues

/-- JavaScript template interpolation of a `string | undefined` value. -/
def jsTemplateOpt (o : Option Text) : Text :=
  match o with
  | some t => t
  | none => "undefined".data

/-- Lodash `compact(parts).join(" ")`: falsy elements (`undefined` and the
empty string) are dropped before joining. -/
def compactJoinSpace (parts : List (Option Text)) : Text :=
  joinSpace (parts.filterMap (fun o =>
    match o with
    | some t => if t.isEmpty then none else some t
    | none => none))

/-- `GithubSyncPlugin.toListItem(i)`: `- [x| ] {title} ({id})` (with falsy
parts dropped by `compact`), plus an indented `- {description}` line when
the description is truthy. -/
def toListItem (i : Issue) : Text :=
  let checkbox := if i.status == some Status.closed then "[x]".data else "[ ]".data
  let md := compactJoinSpace
    [some ("-".data), some checkbox, i.title, some ('(' :: jsTemplateOpt i.id ++ [')'])]
  match i.description with
  | some d => if !d.isEmpty then md ++ '\n' :: '\t' :: '-' :: ' ' :: d else md
  | none => md

/-- The markdown `fetchIssues` writes into the `Issues` section: the
sorted list items joined by newlines, or `No issues found.` for an empty
list. -/
def fetchIssuesMd (issues : List Issue) : Text :=
  if !issues.isEmpty then joinNl ((sortIssuesForFetch issues).map toListItem)
  else "No issues found.".data

/-- `parseInt` restricted to the modelled domain of decimal ids (optional
sign and leading digits after whitespace; the `NaN` result for a
digit-free string is outside the domain the repository feeds it). -/
def parseIntJS (t : Text) : Int :=
  let digitsVal : Text → Int := fun ds =>
    ds.foldl (fun n c => n * 10 + (Int.ofNat (c.toNat - '0'.toNat))) 0
  match t.dropWhile isWs with
  | '-' :: ds => -(digitsVal (ds.takeWhile Char.isDigit))
  | '+' :: ds => digitsVal (ds.takeWhile Char.isDigit)
  | ds => digitsVal (ds.takeWhile Char.isDigit)

/-- `Github.compareIds(a, b)`: compares ids by their integer values. -/
def compareIds (a b : Text) : Int := parseIntJS a - parseIntJS b

/-- The text of an issue list rendered under the `Issues` heading (each
issue via `toListItem`), as claimed for the parse/render round trip. -/
def renderIssuesUnderHeading (l : List Issue) : Text :=
  "## Issues\n".data ++ joinNl (l.map toListItem)

/-- Descending-by-status order between adjacent rendered issues: the
second one's status text is not lexicographically above the first's. -/
def descByStatus (x y : Issue) : Prop :=
  lexLtT (statusTextOf x) (statusTextOf y) = false

/-- The adjacent-pair ordering claimed for the fetched list: strictly
descending by status text, or tied on status and non-increasing under
`compareIds`. -/
def fetchClaimOrder (x y : Issue) : Bool :=
  lexLtT (statusTextOf y) (statusTextOf x) ||
    (statusTextOf x == statusTextOf y &&
      decide (compareIds (x.id.getD []) (y.id.getD []) ≤ 0))

/-- The status text of an issue is the word `open`. -/
def isOpenTxt (i : Issue) : Bool := statusTextOf i == "open".data

/-- Issues whose fields the note grammar can represent faithfully: a
non-empty word-character id, a title without parentheses-opening or
newline characters and without whitespace at either end, a definite
status, no status reason or parent ids, and (optionally) a single-line
trimmed description of at least two characters. -/
def validIssue (i : Issue) : Bool :=
  (match i.id with
   | some id => !id.isEmpty && id.all isWordChar
   | none => false) &&
  (match i.title with
   | some t =>
     !t.isEmpty && !t.contains '(' && !t.contains '\n' &&
       (match t.head? with | some c => !isWs c | none => false) &&
       (match t.getLast? with | some c => !isWs c | none => false)
   | none => false) &&
  i.status.isSome && i.statusReason == none && i.milestoneId == none && i.projectId == none &&
  (match i.description with
   | none => true
   | some d =>
     decide (2 ≤ d.length) && !d.contains '\n' &&
       (match d.head? with | some c => !isWs c | none => false) &&
       (match d.getLast? with | some c => !isWs c | none => false))

/-! ## Helper lemmas -/

theorem findIdx?_split {α : Type} (p : α → Bool) (pre : List α) (x : α) (post : List α)
    (i : Nat) (hpre : ∀ y ∈ pre, p y = false) (hx : p x = true) :
    (pre ++ x :: post).findIdx? p i = some (i + pre.length) := by
  induction pre generalizing i with
  | nil => simp [List.findIdx?_cons, hx]
  | cons y ys ih =>
    have hy : p y = false := hpre y (by simp)
    have h2 := ih (i + 1) (fun z hz => hpre z (by simp [hz]))
    rw [List.cons_append, List.findIdx?_cons, hy]
    simp only [Bool.false_eq_true, if_false, h2, List.length_cons]
    exact congrArg some (by omega)

theorem findIdx?_all_none {α : Type} (p : α → Bool) (l : List α) (i : Nat)
    (h : ∀ y ∈ l, p y = false) : l.findIdx? p i = none := by
  induction l generalizing i with
  | nil => simp
  | cons y ys ih =>
    have hy : p y = false := h y (by simp)
    rw [List.findIdx?_cons, hy]
    simp only [Bool.false_eq_true, if_false]
    exact ih (i + 1) (fun z hz => h z (by simp [hz]))

theorem eraseIdx_at {α : Type} : ∀ (pre : List α) (x : α) (post : List α),
    (pre ++ x :: post).eraseIdx pre.length = pre ++ post
  | [], _, _ => rfl
  | y :: ys, x, post => congrArg (y :: ·) (eraseIdx_at ys x post)

theorem getElem?_at {α : Type} : ∀ (pre : List α) (x : α) (post : List α),
    (pre ++ x :: post)[pre.length]? = some x
  | [], x, post => by simp
  | y :: ys, x, post => by
    simp only [List.cons_append, List.length_cons, List.getElem?_cons_succ]
    exact getElem?_at ys x post

/-! ## Claim theorems -/

/-- C10: when no cached entry carries the target id, `IssueCache.update`
and `IssueCache.remove` throw (modelled as `none`), leaving the state
unchanged; when an entry exists, `update` replaces exactly the first entry
with that id and returns the previous value, and `remove` deletes exactly
that entry, with all other entries unchanged in place. -/
theorem issueCache_update_remove_spec (s pre post : List Issue) (d x : Issue) (id : Text) :
    ((∀ i ∈ s, ¬ i.id = d.id) → IssueCache.update s d = none) ∧
    ((∀ i ∈ s, ¬ i.id = some id) → IssueCache.remove s id = none) ∧
    ((∀ y ∈ pre, ¬ y.id = d.id) → x.id = d.id →
      IssueCache.update (pre ++ x :: post) d = some (pre ++ d :: post, x)) ∧
    ((∀ y ∈ pre, ¬ y.id = some id) → x.id = some id →
      IssueCache.remove (pre ++ x :: post) id = some (pre ++ post)) := by
  refine ⟨fun h => ?_, fun h => ?_, fun h hx => ?_, fun h hx => ?_⟩
  · rw [IssueCache.update,
      findIdx?_all_none _ _ _ (fun y hy => by simpa using h y hy)]
  · rw [IssueCache.remove,
      findIdx?_all_none _ _ _ (fun y hy => by simpa using h y hy)]
  · rw [IssueCache.update,
      findIdx?_split _ pre x post 0 (fun y hy => by simpa using h y hy) (by simpa using hx)]
    simp only [Nat.zero_add, getElem?_at]
    rw [show (pre ++ x :: post).set pre.length d = pre ++ d :: post by simp [List.set_append]]
    rfl
  · rw [IssueCache.remove,
      findIdx?_split _ pre x post 0 (fun y hy => by simpa using h y hy) (by simpa using hx)]
    simp only [Nat.zero_add]
    rw [eraseIdx_at]

/-- Witness for C10 at concrete caches: a missing id makes both
operations fail, a present id is updated in place and removed in place. -/
theorem issueCache_update_remove_spec_witness :
    IssueCache.update [{ id := some ['1'], title := some ['A'] }]
        { id := some ['2'], title := some ['B'] } = none ∧
    IssueCache.remove [{ id := some ['1'], title := some ['A'] }] ['2'] = none ∧
    IssueCache.update [{ id := some ['1'], title := some ['A'] },
        { id := some ['2'], title := some ['B'] }] { id := some ['2'], title := some ['C'] }
      = some ([{ id := some ['1'], title := some ['A'] },
          { id := some ['2'], title := some ['C'] }], { id := some ['2'], title := some ['B'] }) ∧
    IssueCache.remove [{ id := some ['1'], title := some ['A'] },
        { id := some ['2'], title := some ['B'] }] ['2']
      = some [{ id := some ['1'], title := some ['A'] }] := by
  refine ⟨?_, ?_, ?_, ?_⟩
  · exact (issueCache_update_remove_spec [{ id := some ['1'], title := some ['A'] }] [] []
      { id := some ['2'], title := some ['B'] } { id := some ['2'], title := some ['B'] }
      ['2']).1 (by decide)
  · exact (issueCache_update_remove_spec [{ id := some ['1'], title := some ['A'] }] [] []
      { id := some ['2'], title := some ['B'] } { id := some ['2'], title := some ['B'] }
      ['2']).2.1 (by decide)
  · exact (issueCache_update_remove_spec [] [{ id := some ['1'], title := some ['A'] }] []
      { id := some ['2'], title := some ['C'] } { id := some ['2'], title := some ['B'] }
      ['2']).2.2.1 (by decide) (by decide)
  · exact (issueCache_update_remove_spec [] [{ id := some ['1'], title := some ['A'] }] []
      { id := some ['2'], title := some ['C'] } { id := some ['2'], title := some ['B'] }
      ['2']).2.2.2 (by decide) (by decide)

/-- C1: the claim fails in the code and the code contradicts its own
intent: `writeSection` on a note whose `Issues` section is followed by a
`# Next` section replaces the section body but drops every line from the
next heading on (the computed `end` of the old body is dead code), so the
subsequent section is not present in the result. -/
theorem writeSection_drops_following_sections :
    writeSection ("## Issues\nold\n\n# Next\nrest".data) ("Issues".data) ("new".data)
      = "## Issues\n\nnew\n\n".data ∧
    hasSub (writeSection ("## Issues\nold\n\n# Next\nrest".data) ("Issues".data) ("new".data))
      ("# Next".data) = false := by
  decide

/-- C9: `setIdOnIssue("Fix bug", "42")` on a note whose `Issues` section
contains `- [ ] Fix bug` rewrites that line to `- [ ] Fix bug (42)`, and
parsing the rewritten note yields the single issue with id `42`, title
`Fix bug` and open status. -/
theorem setIdOnIssue_fix_bug_roundtrip :
    setIdOnIssue ("## Issues\n- [ ] Fix bug".data) ("Fix bug".data) ("42".data)
      = some ("## Issues\n- [ ] Fix bug (42)".data) ∧
    getIssues ⟨"note.md".data, "## Issues\n- [ ] Fix bug (42)".data⟩
      = [{ id := some ("42".data), title := some ("Fix bug".data), description := none,
           status := some Status.open', statusReason := none, milestoneId := none,
           projectId := none }] := by
  decide

/-- C2 (amended): after the diff step of `onChanged`, the note-cache entry
for the file's path is deleted exactly when an issue or a milestone was
classified as added; otherwise — including when only a project was
classified as added — the entry is set to the current text.  Entries for
other paths are untouched. -/
theorem onChanged_cache_spec (prev cur : Note) (path : Text) (cache : Text → Option Text) :
    ((¬ (issuesDiff prev cur).added = [] ∨ ¬ (milestoneDiff prev cur).added = []) →
      onChangedCacheUpdate cache path cur.content (issuesDiff prev cur)
        (milestoneDiff prev cur) path = none) ∧
    ((issuesDiff prev cur).added = [] → (milestoneDiff prev cur).added = [] →
      onChangedCacheUpdate cache path cur.content (issuesDiff prev cur)
        (milestoneDiff prev cur) path = some cur.content) ∧
    (∀ p, ¬ p = path →
      onChangedCacheUpdate cache path cur.content (issuesDiff prev cur)
        (milestoneDiff prev cur) p = cache p) := by
  refine ⟨fun h => ?_, fun h1 h2 => ?_, fun p hp => ?_⟩
  · rcases h with h | h <;>
      simp [onChangedCacheUpdate, List.isEmpty_iff, h]
  · simp [onChangedCacheUpdate, List.isEmpty_iff, h1, h2]
  · by_cases hc : (issuesDiff prev cur).added.isEmpty = false ∨
        (milestoneDiff prev cur).added.isEmpty = false <;>
      simp [onChangedCacheUpdate, hp] <;> simp_all

/-- Witness for C2 (amended) at two concrete change events: an added
id-less issue deletes the cache entry, an unchanged plain note stores the
current text. -/
theorem onChanged_cache_spec_witness :
    onChangedCacheUpdate (fun _ => none) ("a.md".data)
        (Note.content ⟨"a.md".data, "## Issues\n- [ ] New task".data⟩)
        (issuesDiff ⟨"a.md".data, "## Issues\n".data⟩
          ⟨"a.md".data, "## Issues\n- [ ] New task".data⟩)
        (milestoneDiff ⟨"a.md".data, "## Issues\n".data⟩
          ⟨"a.md".data, "## Issues\n- [ ] New task".data⟩) ("a.md".data) = none ∧
    onChangedCacheUpdate (fun _ => none) ("b.md".data)
        (Note.content ⟨"b.md".data, "hello".data⟩)
        (issuesDiff ⟨"b.md".data, "hello".data⟩ ⟨"b.md".data, "hello".data⟩)
        (milestoneDiff ⟨"b.md".data, "hello".data⟩ ⟨"b.md".data, "hello".data⟩)
        ("b.md".data) = some ("hello".data) := by
  constructor
  · exact (onChanged_cache_spec ⟨"a.md".data, "## Issues\n".data⟩
      ⟨"a.md".data, "## Issues\n- [ ] New task".data⟩ ("a.md".data) (fun _ => none)).1
      (Or.inl (by decide))
  · exact (onChanged_cache_spec ⟨"b.md".data, "hello".data⟩ ⟨"b.md".data, "hello".data⟩
      ("b.md".data) (fun _ => none)).2.1 (by decide) (by decide)

/-- C2 counterexample: a change event in which only a project is
classified as added (a note tracking a project with no id yet, with a
valid repo so the guards pass) stores the current text in the cache
instead of deleting the entry, because `onChanged` only consults the issue
and milestone diffs. -/
theorem onChanged_cache_project_added_counterexample :
    ¬ (projectDiff ⟨"p.md".data, "---\nmission.type: project\nmission.repo: a/b\n---\n".data⟩
        ⟨"p.md".data, "---\nmission.type: project\nmission.repo: a/b\n---\n".data⟩).added = [] ∧
    (issuesDiff ⟨"p.md".data, "---\nmission.type: project\nmission.repo: a/b\n---\n".data⟩
        ⟨"p.md".data, "---\nmission.type: project\nmission.repo: a/b\n---\n".data⟩).added = [] ∧
    (milestoneDiff ⟨"p.md".data, "---\nmission.type: project\nmission.repo: a/b\n---\n".data⟩
        ⟨"p.md".data, "---\nmission.type: project\nmission.repo: a/b\n---\n".data⟩).added = [] ∧
    onChangedCacheUpdate (fun _ => none) ("p.md".data)
        ("---\nmission.type: project\nmission.repo: a/b\n---\n".data)
        (issuesDiff ⟨"p.md".data, "---\nmission.type: project\nmission.repo: a/b\n---\n".data⟩
          ⟨"p.md".data, "---\nmission.type: project\nmission.repo: a/b\n---\n".data⟩)
        (milestoneDiff ⟨"p.md".data, "---\nmission.type: project\nmission.repo: a/b\n---\n".data⟩
          ⟨"p.md".data, "---\nmission.type: project\nmission.repo: a/b\n---\n".data⟩)
        ("p.md".data)
      = some ("---\nmission.type: project\nmission.repo: a/b\n---\n".data) := by
  decide

/-- C7 (amended): `setHeadSection` preserves exactly the text from the
first heading line on and replaces everything before it — including the
front-matter block — with the new content; when no heading exists the
whole text is replaced. -/
theorem setHeadSection_replaces_up_to_first_heading (t c : Text) :
    (∀ q : Nat × Text, findLineOffset t isHashSpaceLine = some q →
      setHeadSection t c = c ++ t.drop q.1) ∧
    (findLineOffset t isHashSpaceLine = none → setHeadSection t c = c) := by
  constructor
  · intro q hq
    simp [setHeadSection, findHashSpaceOffset, hq]
  · intro hq
    simp [setHeadSection, findHashSpaceOffset, hq]

/-- Witness for C7 (amended) on a concrete note with front matter and a
heading at offset 18. -/
theorem setHeadSection_replaces_up_to_first_heading_witness :
    setHeadSection ("---\nk: v\n---\nhead\n# H\nbody".data) ("new".data)
      = "new".data ++ ("---\nk: v\n---\nhead\n# H\nbody".data).drop 18 := by
  exact (setHeadSection_replaces_up_to_first_heading
    ("---\nk: v\n---\nhead\n# H\nbody".data) ("new".data)).1 (18, "# H".data) (by decide)

/-- C7 counterexample: on a note with a front-matter block, the head
section and a heading, `setHeadSection` yields a text in which the
front-matter block is gone (its properties no longer read back), refuting
the claim that the front matter is unchanged. -/
theorem setHeadSection_front_matter_counterexample :
    properties ("---\nk: v\n---\nhead\n# H\nbody".data) = [("k".data, "v".data)] ∧
    setHeadSection ("---\nk: v\n---\nhead\n# H\nbody".data) ("new".data)
      = "new# H\nbody".data ∧
    properties (setHeadSection ("---\nk: v\n---\nhead\n# H\nbody".data) ("new".data)) = [] := by
  decide

theorem truthyS_false_iff (o : Option Text) : truthyS o = false ↔ (o = none ∨ o = some []) := by
  rcases o with _ | (_ | ⟨c, cs⟩) <;> simp [truthyS]

theorem filterMap_filter' {α β : Type} (p : α → Bool) (f : α → Option β) (l : List α) :
    (l.filter p).filterMap f = l.filterMap fun a => if p a then f a else none := by
  induction l with
  | nil => rfl
  | cons a as ih => cases hp : p a <;> simp [List.filter_cons, hp, List.filterMap_cons, ih]

theorem equals_refl_issue (i : Issue) : Issue.equals i i = true := by
  simp [Issue.equals]

theorem equals_refl_milestone (m : Milestone) : Milestone.equals m m = true := by
  simp [Milestone.equals]

theorem equals_refl_project (p : Project) : Project.equals p p = true := by
  simp [Project.equals]

theorem find?_self_of_distinct_ids (a : Issue) :
    ∀ (L : List Issue), (L.Pairwise fun x y => ¬ x.id = y.id) → a ∈ L →
      L.find? (fun b => b.id == a.id) = some a
  | h :: t, hp, hm => by
    rcases List.mem_cons.mp hm with rfl | hmt
    · simp [List.find?_cons]
    · have hne : ¬ h.id = a.id := (List.pairwise_cons.mp hp).1 a hmt
      rw [List.find?_cons_of_neg _ (by simp [hne])]
      exact find?_self_of_distinct_ids a t (List.pairwise_cons.mp hp).2 hmt

/-- C3: the issue diff classifies exactly as the specification says:
`added` are the after-issues with an empty (falsy) id in after-order,
`removed` the before-issues whose id occurs in no after-issue in
before-order, `changed` the pairs of the first before-issue with the same
id and the after-issue, for after-issues with a non-empty id that are not
field-equal to it; and at the specification's concrete example the diff is
`added=[B]`, `removed=[]`, `changed=[(A-open, A-closed)]`. -/
theorem issuesDiff_characterization :
    (∀ before after : List Issue,
      (issuesDiffL before after).added
        = after.filter (fun i => decide (i.id = none ∨ i.id = some [])) ∧
      (issuesDiffL before after).removed
        = before.filter (fun b => decide (∀ a ∈ after, ¬ a.id = b.id)) ∧
      (issuesDiffL before after).changed
        = after.filterMap (fun a =>
            if truthyS a.id then
              match before.find? (fun b => b.id == a.id) with
              | some b => if b.equals a then none else some (b, a)
              | none => none
            else none)) ∧
    issuesDiffL
        [{ id := some ['1'], title := some ['A'], status := some Status.open' }]
        [{ id := some ['1'], title := some ['A'], status := some Status.closed },
         { id := some [], title := some ['B'], status := some Status.open' }]
      = { added := [{ id := some [], title := some ['B'], status := some Status.open' }],
          removed := [],
          changed := [({ id := some ['1'], title := some ['A'], status := some Status.open' },
            { id := some ['1'], title := some ['A'], status := some Status.closed })] } := by
  refine ⟨fun before after => ⟨?_, ?_, ?_⟩, by decide⟩
  · exact List.filter_congr fun i _ => by
      rw [Bool.eq_iff_iff]
      simp [truthyS_false_iff]
  · refine List.filter_congr fun b _ => ?_
    rw [Bool.eq_iff_iff]
    simp [List.any_eq_true, beq_iff_eq]
  · rw [issuesDiffL, filterMap_filter']
    refine List.filterMap_congr fun a _ => ?_
    cases h1 : truthyS a.id
    · simp
    · simp only [if_true]
      rcases hf : before.find? (fun b => b.id == a.id) with _ | b
      · simp [hf]
      · cases he : b.equals a <;> simp [hf, he]

/-- C4 (amended): diffing a snapshot against itself yields empty buckets
for issues, milestone and project, provided every parsed issue carries a
non-empty id, no two parsed issues share an id, and the tracked project
(when there is one) carries a non-empty id.  (Without those provisos the
claim fails: id-less issues and an id-less tracked project are classified
as `added` even against an identical snapshot.) -/
theorem selfDiff_empty (n : Note)
    (h1 : ∀ i ∈ getIssues n, truthyS i.id = true)
    (h2 : (getIssues n).Pairwise fun x y => ¬ x.id = y.id)
    (h3 : ∀ p, getTrackedProject n = some p → truthyS p.id = true) :
    issuesDiff n n = ⟨[], [], []⟩ ∧ milestoneDiff n n = ⟨[], [], []⟩ ∧
      projectDiff n n = ⟨[], [], []⟩ := by
  refine ⟨?_, ?_, ?_⟩
  · rw [issuesDiff, issuesDiffL]
    congr 1
    · exact List.filter_eq_nil_iff.mpr fun i hi => by simp [h1 i hi]
    · exact List.filter_eq_nil_iff.mpr fun b hb => by
        simp [List.any_eq_true]
        exact ⟨b, hb, rfl⟩
    · refine List.filterMap_eq_nil_iff.mpr fun a ha => ?_
      have haL : a ∈ getIssues n := (List.mem_filter.mp ha).1
      rw [find?_self_of_distinct_ids a (getIssues n) h2 haL]
      simp [equals_refl_issue]
  · rcases hm : getTrackedMilestone n with _ | m
    · simp [milestoneDiff, hm]
    · simp [milestoneDiff, hm, equals_refl_milestone]
  · rcases hp : getTrackedProject n with _ | p
    · simp [projectDiff, hp, truthyProjId]
    · have := h3 p hp
      simp [projectDiff, hp, truthyProjId, this, equals_refl_project]

/-- Witness for C4 (amended): a milestone-tracking note with one
id-carrying issue self-diffs to empty buckets. -/
theorem selfDiff_empty_witness :
    issuesDiff ⟨"m.md".data, "---\nmission.type: milestone\nmission.id: 5\n---\n## Issues\n- [ ] A (1)\n".data⟩
        ⟨"m.md".data, "---\nmission.type: milestone\nmission.id: 5\n---\n## Issues\n- [ ] A (1)\n".data⟩
      = ⟨[], [], []⟩ ∧
    milestoneDiff ⟨"m.md".data, "---\nmission.type: milestone\nmission.id: 5\n---\n## Issues\n- [ ] A (1)\n".data⟩
        ⟨"m.md".data, "---\nmission.type: milestone\nmission.id: 5\n---\n## Issues\n- [ ] A (1)\n".data⟩
      = ⟨[], [], []⟩ ∧
    projectDiff ⟨"m.md".data, "---\nmission.type: milestone\nmission.id: 5\n---\n## Issues\n- [ ] A (1)\n".data⟩
        ⟨"m.md".data, "---\nmission.type: milestone\nmission.id: 5\n---\n## Issues\n- [ ] A (1)\n".data⟩
      = ⟨[], [], []⟩ :=
  selfDiff_empty
    ⟨"m.md".data, "---\nmission.type: milestone\nmission.id: 5\n---\n## Issues\n- [ ] A (1)\n".data⟩
    (by decide) (by decide) (by decide)

/-- C4 counterexample: a snapshot with a single id-less issue diffs
against itself with that issue in `added`, so the claim as stated (empty
buckets for every snapshot) is false. -/
theorem selfDiff_counterexample :
    ¬ (issuesDiff ⟨"n.md".data, "## Issues\n- [ ] A".data⟩
        ⟨"n.md".data, "## Issues\n- [ ] A".data⟩).added = [] := by
  decide

theorem statusTextOf_cases (i : Issue) :
    statusTextOf i = "open".data ∨ statusTextOf i = "closed".data := by
  rcases hs : i.status with _ | s
  · left; simp [statusTextOf, hs]
  · cases s
    · left; simp [statusTextOf, hs]
    · right; simp [statusTextOf, hs]

theorem statusTextOf_open (i : Issue) (h : isOpenTxt i = true) :
    statusTextOf i = "open".data := by
  simpa [isOpenTxt] using h

theorem statusTextOf_closed (i : Issue) (h : isOpenTxt i = false) :
    statusTextOf i = "closed".data := by
  rcases statusTextOf_cases i with hc | hc
  · rw [isOpenTxt, hc] at h
    simp at h
  · exact hc

theorem insertCmp_closed_end (x : Issue) (hx : isOpenTxt x = false) :
    ∀ L : List Issue, insertCmp fetchSortCmp x L = L ++ [x]
  | [] => rfl
  | y :: ys => by
    have hcy : ¬ fetchSortCmp x y < 0 := by
      rcases statusTextOf_cases y with hy | hy <;>
        rw [fetchSortCmp, statusTextOf_closed x hx, hy] <;> decide
    rw [insertCmp, if_neg hcy, insertCmp_closed_end x hx ys]
    rfl

theorem insertCmp_open_mid (x : Issue) (hx : isOpenTxt x = true) :
    ∀ (A B : List Issue), (∀ a ∈ A, isOpenTxt a = true) → (∀ b ∈ B, isOpenTxt b = false) →
      insertCmp fetchSortCmp x (A ++ B) = A ++ x :: B
  | [], [], _, _ => rfl
  | [], b :: bs, _, hB => by
    have hcb : fetchSortCmp x b < 0 := by
      rw [fetchSortCmp, statusTextOf_open x hx, statusTextOf_closed b (hB b (by simp))]
      decide
    rw [List.nil_append, insertCmp, if_pos hcb]
    rfl
  | a :: as, B, hA, hB => by
    have hca : ¬ fetchSortCmp x a < 0 := by
      rw [fetchSortCmp, statusTextOf_open x hx, statusTextOf_open a (hA a (by simp))]
      decide
    rw [List.cons_append, insertCmp, if_neg hca,
      insertCmp_open_mid x hx as B (fun y hy => hA y (by simp [hy])) hB]
    rfl

theorem sortFold_invariant :
    ∀ (L A B : List Issue), (∀ a ∈ A, isOpenTxt a = true) → (∀ b ∈ B, isOpenTxt b = false) →
      L.foldl (fun acc x => insertCmp fetchSortCmp x acc) (A ++ B)
        = (A ++ L.filter isOpenTxt) ++ (B ++ L.filter (fun i => !isOpenTxt i))
  | [], A, B, _, _ => by simp
  | x :: xs, A, B, hA, hB => by
    rw [List.foldl_cons]
    cases hx : isOpenTxt x
    · rw [insertCmp_closed_end x hx (A ++ B), List.append_assoc A B [x],
        sortFold_invariant xs A (B ++ [x]) hA
          (fun b hb => by rcases List.mem_append.mp hb with h | h
                          · exact hB b h
                          · simpa [List.mem_singleton.mp h] using hx)]
      simp [List.filter_cons, hx, List.append_assoc]
    · rw [insertCmp_open_mid x hx A B hA hB,
        show A ++ x :: B = (A ++ [x]) ++ B by simp,
        sortFold_invariant xs (A ++ [x]) B
          (fun a ha => by rcases List.mem_append.mp ha with h | h
                          · exact hA a h
                          · simpa [List.mem_singleton.mp h] using hx) hB]
      simp [List.filter_cons, hx, List.append_assoc]

theorem sortIssuesForFetch_eq (L : List Issue) :
    sortIssuesForFetch L = L.filter isOpenTxt ++ L.filter (fun i => !isOpenTxt i) := by
  have := sortFold_invariant L [] [] (by simp) (by simp)
  simpa [sortIssuesForFetch, jsSortStable] using this

/-- C8 (amended): the non-empty list written by a command-triggered full
fetch is the sorted list rendered item by item; the sort is descending by
status text only, and within equal status it is stable — it preserves the
fetched list's input order (each status class is the input's subsequence),
with `compareIds` playing no part. -/
theorem fetchIssues_sorted_stable (L : List Issue) (h : ¬ L = []) :
    fetchIssuesMd L = joinNl ((sortIssuesForFetch L).map toListItem) ∧
    (sortIssuesForFetch L).Chain' descByStatus ∧
    (sortIssuesForFetch L).filter isOpenTxt = L.filter isOpenTxt ∧
    (sortIssuesForFetch L).filter (fun i => !isOpenTxt i)
      = L.filter (fun i => !isOpenTxt i) := by
  refine ⟨?_, ?_, ?_, ?_⟩
  · rw [fetchIssuesMd, if_pos (by simp [List.isEmpty_iff, h])]
  · rw [sortIssuesForFetch_eq]
    refine (List.pairwise_append.mpr ⟨?_, ?_, ?_⟩).chain'
    · refine List.pairwise_of_forall_mem_list fun a ha b hb => ?_
      rw [descByStatus, statusTextOf_open a (List.mem_filter.mp ha).2,
        statusTextOf_open b (List.mem_filter.mp hb).2]
      decide
    · refine List.pairwise_of_forall_mem_list fun a ha b hb => ?_
      rw [descByStatus, statusTextOf_closed a (by simpa using (List.mem_filter.mp ha).2),
        statusTextOf_closed b (by simpa using (List.mem_filter.mp hb).2)]
      decide
    · intro a ha b hb
      rw [descByStatus, statusTextOf_open a (List.mem_filter.mp ha).2,
        statusTextOf_closed b (by simpa using (List.mem_filter.mp hb).2)]
      decide
  · have e1 : (L.filter isOpenTxt).filter isOpenTxt = L.filter isOpenTxt :=
      List.filter_eq_self.mpr fun a ha => (List.mem_filter.mp ha).2
    have e2 : (L.filter (fun i => !isOpenTxt i)).filter isOpenTxt = [] :=
      List.filter_eq_nil_iff.mpr fun a ha => by simpa using (List.mem_filter.mp ha).2
    rw [sortIssuesForFetch_eq, List.filter_append, e1, e2]
    simp
  · have e1 : (L.filter isOpenTxt).filter (fun i => !isOpenTxt i) = [] :=
      List.filter_eq_nil_iff.mpr fun a ha => by simp [(List.mem_filter.mp ha).2]
    have e2 : (L.filter (fun i => !isOpenTxt i)).filter (fun i => !isOpenTxt i)
        = L.filter (fun i => !isOpenTxt i) :=
      List.filter_eq_self.mpr fun a ha => (List.mem_filter.mp ha).2
    rw [sortIssuesForFetch_eq, List.filter_append, e1, e2]
    simp

/-- Witness for C8 (amended) on a concrete fetched pair (one closed, one
open issue): the rendered list is the status-sorted, stably ordered one. -/
theorem fetchIssues_sorted_stable_witness :
    fetchIssuesMd [{ id := some ['3'], title := some ['C'], status := some Status.closed },
        { id := some ['4'], title := some ['O'], status := some Status.open' }]
      = joinNl ((sortIssuesForFetch
          [{ id := some ['3'], title := some ['C'], status := some Status.closed },
           { id := some ['4'], title := some ['O'], status := some Status.open' }]).map toListItem) ∧
    (sortIssuesForFetch [{ id := some ['3'], title := some ['C'], status := some Status.closed },
        { id := some ['4'], title := some ['O'], status := some Status.open' }]).Chain' descByStatus ∧
    (sortIssuesForFetch [{ id := some ['3'], title := some ['C'], status := some Status.closed },
        { id := some ['4'], title := some ['O'], status := some Status.open' }]).filter isOpenTxt
      = ([{ id := some ['3'], title := some ['C'], status := some Status.closed },
          { id := some ['4'], title := some ['O'], status := some Status.open' }] : List Issue).filter isOpenTxt ∧
    (sortIssuesForFetch [{ id := some ['3'], title := some ['C'], status := some Status.closed },
        { id := some ['4'], title := some ['O'], status := some Status.open' }]).filter (fun i => !isOpenTxt i)
      = ([{ id := some ['3'], title := some ['C'], status := some Status.closed },
          { id := some ['4'], title := some ['O'], status := some Status.open' }] : List Issue).filter (fun i => !isOpenTxt i) :=
  fetchIssues_sorted_stable
    [{ id := some ['3'], title := some ['C'], status := some Status.closed },
     { id := some ['4'], title := some ['O'], status := some Status.open' }] (by decide)

/-- C8 counterexample: two open issues with ids 2 and 1 in that input
order are rendered in input order (the sort is stable and ignores ids),
violating the claimed `compareIds` tie-break, under which id 1 would come
first. -/
theorem fetchIssues_tiebreak_counterexample :
    sortIssuesForFetch
        [{ id := some ['2'], title := some ['B'], status := some Status.open' },
         { id := some ['1'], title := some ['A'], status := some Status.open' }]
      = [{ id := some ['2'], title := some ['B'], status := some Status.open' },
         { id := some ['1'], title := some ['A'], status := some Status.open' }] ∧
    ¬ List.Chain' (fun x y => fetchClaimOrder x y = true)
        (sortIssuesForFetch
          [{ id := some ['2'], title := some ['B'], status := some Status.open' },
           { id := some ['1'], title := some ['A'], status := some Status.open' }]) := by
  refine ⟨by decide, ?_⟩
  rw [show sortIssuesForFetch
        [{ id := some ['2'], title := some ['B'], status := some Status.open' },
         { id := some ['1'], title := some ['A'], status := some Status.open' }]
      = [{ id := some ['2'], title := some ['B'], status := some Status.open' },
         { id := some ['1'], title := some ['A'], status := some Status.open' }] from by decide]
  simp only [List.chain'_cons, List.chain'_singleton, and_true]
  decide

theorem splitNl_cons (c : Char) (cs : Text) :
    splitNl (c :: cs) = if c = '\n' then [] :: splitNl cs
      else match splitNl cs with
        | a :: as => (c :: a) :: as
        | [] => [[c]] := rfl

theorem splitNl_ne_nil : ∀ t : Text, ¬ splitNl t = []
  | [] => by simp [splitNl]
  | c :: cs => by
    rw [splitNl_cons]
    by_cases hc : c = '\n'
    · simp [hc]
    · rcases hs : splitNl cs with _ | ⟨a, as⟩ <;> simp [hc, hs]

theorem splitNl_no_nl : ∀ t : Text, '\n' ∉ t → splitNl t = [t]
  | [], _ => rfl
  | c :: cs, h => by
    have hc : ¬ c = '\n' := fun hh => h (hh ▸ List.mem_cons_self c cs)
    rw [splitNl_cons, if_neg hc, splitNl_no_nl cs (fun hh => h (List.mem_cons_of_mem c hh))]

theorem splitNl_append_nl : ∀ a b : Text, splitNl (a ++ '\n' :: b) = splitNl a ++ splitNl b
  | [], b => by simp [splitNl_cons, splitNl]
  | c :: cs, b => by
    by_cases hc : c = '\n'
    · rw [List.cons_append, splitNl_cons, if_pos hc, splitNl_append_nl cs b,
        splitNl_cons, if_pos hc]
      rfl
    · obtain ⟨h, t, hht⟩ := List.exists_cons_of_ne_nil (splitNl_ne_nil cs)
      rw [List.cons_append, splitNl_cons, if_neg hc, splitNl_append_nl cs b, hht,
        List.cons_append, splitNl_cons, if_neg hc, hht]
      rfl

theorem joinNl_cons_ne_nil (x : Text) (xs : List Text) (h : ¬ xs = []) :
    joinNl (x :: xs) = x ++ '\n' :: joinNl xs := by
  obtain ⟨y, ys, rfl⟩ := List.exists_cons_of_ne_nil h
  rfl

theorem joinNl_splitNl : ∀ t : Text, joinNl (splitNl t) = t
  | [] => rfl
  | c :: cs => by
    by_cases hc : c = '\n'
    · rw [splitNl_cons, if_pos hc, joinNl_cons_ne_nil [] (splitNl cs) (splitNl_ne_nil cs),
        joinNl_splitNl cs, hc]
      rfl
    · obtain ⟨h, t, hht⟩ := List.exists_cons_of_ne_nil (splitNl_ne_nil cs)
      rw [splitNl_cons, if_neg hc, hht]
      rcases t with _ | ⟨u, us⟩
      · have := joinNl_splitNl cs
        rw [hht] at this
        simpa [joinNl] using congrArg (c :: ·) this
      · have := joinNl_splitNl cs
        rw [hht] at this
        calc joinNl ((c :: h) :: u :: us) = c :: joinNl (h :: u :: us) := by
              simp [joinNl]
          _ = c :: cs := by rw [this]

theorem splitNl_joinNl_flat : ∀ ps : List Text, ¬ ps = [] →
    splitNl (joinNl ps) = ps.flatMap splitNl
  | [x], _ => by simp [joinNl]
  | x :: y :: ys, _ => by
    rw [joinNl_cons_ne_nil x (y :: ys) (by simp), splitNl_append_nl,
      splitNl_joinNl_flat (y :: ys) (by simp)]
    rfl

theorem flatMap_splitNl_id : ∀ ps : List Text, (∀ l ∈ ps, '\n' ∉ l) → ps.flatMap splitNl = ps
  | [], _ => rfl
  | x :: xs, h => by
    rw [List.flatMap_cons, splitNl_no_nl x (h x (by simp)),
      flatMap_splitNl_id xs (fun l hl => h l (by simp [hl]))]
    rfl

theorem mem_joinNl_between : ∀ (ps : List Text) (l : Text), l ∈ ps → l <:+: joinNl ps
  | [x], l, hl => by
    rw [List.mem_singleton.mp hl]
    exact List.infix_refl (joinNl [x])
  | x :: y :: ys, l, hl => by
    rw [joinNl_cons_ne_nil x (y :: ys) (by simp)]
    rcases List.mem_cons.mp hl with rfl | hl2
    · exact (List.prefix_append l ('\n' :: joinNl (y :: ys))).isInfix
    · exact (mem_joinNl_between (y :: ys) l hl2).trans
        ⟨x ++ ['\n'], [], by simp⟩

theorem mem_splitNl_infix (t l : Text) (h : l ∈ splitNl t) : l <:+: t := by
  have := mem_joinNl_between (splitNl t) l h
  rwa [joinNl_splitNl] at this

theorem mem_splitNl_no_nl : ∀ (t : Text) (l : Text), l ∈ splitNl t → '\n' ∉ l
  | [], l, h => by
    rw [show splitNl [] = [[]] from rfl, List.mem_singleton] at h
    simp [h]
  | c :: cs, l, h => by
    by_cases hc : c = '\n'
    · rw [splitNl_cons, if_pos hc, List.mem_cons] at h
      rcases h with rfl | h2
      · simp
      · exact mem_splitNl_no_nl cs l h2
    · obtain ⟨a, as, has⟩ := List.exists_cons_of_ne_nil (splitNl_ne_nil cs)
      rw [splitNl_cons, if_neg hc, has, List.mem_cons] at h
      rcases h with rfl | h2
      · intro hmem
        rcases List.mem_cons.mp hmem with rfl | h3
        · exact hc rfl
        · exact mem_splitNl_no_nl cs a (has ▸ List.mem_cons_self a as) h3
      · exact mem_splitNl_no_nl cs l (has ▸ List.mem_cons_of_mem a h2)

theorem splitAtSub_decomp (sub : Text) :
    ∀ (l a b : Text), splitAtSub sub l = some (a, b) → l = a ++ sub ++ b
  | [], a, b, h => by simp [splitAtSub] at h
  | c :: cs, a, b, h => by
    rw [splitAtSub] at h
    by_cases hp : sub.isPrefixOf (c :: cs)
    · rw [if_pos hp] at h
      obtain ⟨rfl, rfl⟩ : ([] : Text) = a ∧ (c :: cs).drop sub.length = b := by
        simpa using h
      have := List.prefix_iff_eq_take.mp (List.isPrefixOf_iff_prefix.mp hp)
      conv_lhs => rw [← List.take_append_drop sub.length (c :: cs), ← this]
      simp
    · rw [if_neg hp] at h
      rcases hr : splitAtSub sub cs with _ | ⟨a', b'⟩
      · rw [hr] at h
        simp at h
      · rw [hr] at h
        obtain ⟨rfl, rfl⟩ : c :: a' = a ∧ b' = b := by simpa using h
        have := splitAtSub_decomp sub cs a' b' hr
        rw [List.cons_append, List.cons_append, ← this]

theorem splitAtSub_before_clean (sub : Text) (hsub : ¬ sub = []) :
    ∀ (l a b : Text), splitAtSub sub l = some (a, b) → ¬ (sub <:+: a)
  | [], a, b, h => by simp [splitAtSub] at h
  | c :: cs, a, b, h => by
    rw [splitAtSub] at h
    by_cases hp : sub.isPrefixOf (c :: cs)
    · rw [if_pos hp] at h
      obtain ⟨rfl, rfl⟩ : ([] : Text) = a ∧ (c :: cs).drop sub.length = b := by
        simpa using h
      intro hinf
      exact hsub (List.eq_nil_of_infix_nil hinf)
    · rw [if_neg hp] at h
      rcases hr : splitAtSub sub cs with _ | ⟨a', b'⟩
      · rw [hr] at h
        simp at h
      · rw [hr] at h
        obtain ⟨rfl, rfl⟩ : c :: a' = a ∧ b' = b := by simpa using h
        intro hinf
        rcases List.infix_cons_iff.mp hinf with hpre | hinf'
        · have hdec := splitAtSub_decomp sub cs a' b' hr
          have hpre2 : (c :: a') <+: (c :: cs) := by
            refine ⟨sub ++ b', ?_⟩
            rw [hdec]
            simp
          exact hp (List.isPrefixOf_iff_prefix.mpr (hpre.trans hpre2))
        · exact splitAtSub_before_clean sub hsub cs a' b' hr hinf'

theorem splitAtSub_colon_boundary :
    ∀ (k v : Text), ¬ ((':' :: ' ' :: []) <:+: k) →
      splitAtSub (':' :: ' ' :: []) (k ++ ':' :: ' ' :: v) = some (k, v)
  | [], v, _ => by simp [splitAtSub, List.isPrefixOf]
  | c :: k', v, hk => by
    have hnp : ¬ (':' :: ' ' :: []).isPrefixOf (c :: (k' ++ ':' :: ' ' :: v)) = true := by
      intro hb
      obtain ⟨t, ht⟩ := List.isPrefixOf_iff_prefix.mp hb
      rcases k' with _ | ⟨d, k''⟩
      · simp at ht
      · simp at ht
        refine hk ⟨[], k'', ?_⟩
        simp only [List.nil_append, List.cons_append, List.nil_append, List.cons.injEq]
        exact ⟨ht.1, ht.2.1, trivial⟩
    rw [show (c :: k') ++ ':' :: ' ' :: v = c :: (k' ++ ':' :: ' ' :: v) from rfl,
      splitAtSub, if_neg hnp,
      splitAtSub_colon_boundary k' v (fun hinf => hk (List.infix_cons hinf))]
    rfl

theorem parseYamlLine_roundtrip (k v : Text) (hk : ¬ ((':' :: ' ' :: []) <:+: k)) :
    parseYamlLine (k ++ ':' :: ' ' :: v) = some (k, v) :=
  splitAtSub_colon_boundary k v hk

theorem mem_objSet (o : List (Text × Text)) (k v : Text) (q : Text × Text)
    (h : q ∈ objSet o k v) : q = (k, v) ∨ q ∈ o := by
  rw [objSet] at h
  by_cases ha : o.any (fun p => p.1 == k)
  · rw [if_pos ha] at h
    obtain ⟨p, hp, hfp⟩ := List.mem_map.mp h
    by_cases hpk : (p.1 == k) = true
    · rw [if_pos hpk] at hfp
      exact Or.inl hfp.symm
    · rw [if_neg hpk] at hfp
      exact Or.inr (hfp ▸ hp)
  · rw [if_neg ha] at h
    rcases List.mem_append.mp h with h2 | h2
    · exact Or.inr h2
    · exact Or.inl (List.mem_singleton.mp h2)

theorem keys_objSet (o : List (Text × Text)) (k v : Text) :
    (objSet o k v).map Prod.fst
      = if o.any (fun p => p.1 == k) then o.map Prod.fst else o.map Prod.fst ++ [k] := by
  rw [objSet]
  by_cases ha : o.any (fun p => p.1 == k)
  · rw [if_pos ha, if_pos ha, List.map_map]
    refine List.map_congr_left fun p _ => ?_
    by_cases hpk : (p.1 == k) = true
    · simp only [Function.comp_apply, if_pos hpk]
      exact (beq_iff_eq.mp hpk).symm
    · simp only [Function.comp_apply, if_neg hpk]
  · rw [if_neg ha, if_neg ha]
    simp

theorem nodupKeys_objSet (o : List (Text × Text)) (k v : Text)
    (h : (o.map Prod.fst).Nodup) : ((objSet o k v).map Prod.fst).Nodup := by
  rw [keys_objSet]
  by_cases ha : o.any (fun p => p.1 == k)
  · rwa [if_pos ha]
  · rw [if_neg ha]
    refine List.Nodup.append h (List.nodup_singleton k) ?_
    intro a hao hak
    rw [List.mem_singleton.mp hak] at hao
    obtain ⟨p, hp, hpk⟩ := List.mem_map.mp hao
    exact absurd (List.any_eq_true.mpr ⟨p, hp, by simp [hpk]⟩) ha

theorem mem_parseYamlLinesAux :
    ∀ (ls : List Text) (acc : List (Text × Text)) (q : Text × Text),
      q ∈ ls.foldl (fun o l => match parseYamlLine l with
        | some (kk, vv) => objSet o kk vv
        | none => o) acc →
      q ∈ acc ∨ ∃ l ∈ ls, parseYamlLine l = some q
  | [], _, q, h => Or.inl h
  | l :: ls', acc, q, h => by
    rw [List.foldl_cons] at h
    rcases hpl : parseYamlLine l with _ | ⟨kk, vv⟩
    · rw [hpl] at h
      rcases mem_parseYamlLinesAux ls' acc q h with h2 | ⟨l', hl', he⟩
      · exact Or.inl h2
      · exact Or.inr ⟨l', by simp [hl'], he⟩
    · rw [hpl] at h
      rcases mem_parseYamlLinesAux ls' (objSet acc kk vv) q h with h2 | ⟨l', hl', he⟩
      · rcases mem_objSet acc kk vv q h2 with rfl | h3
        · exact Or.inr ⟨l, by simp, hpl⟩
        · exact Or.inl h3
      · exact Or.inr ⟨l', by simp [hl'], he⟩

theorem mem_parseYamlLines (ls : List Text) (q : Text × Text)
    (h : q ∈ parseYamlLines ls) : ∃ l ∈ ls, parseYamlLine l = some q := by
  rcases mem_parseYamlLinesAux ls [] q h with h2 | h2
  · simp at h2
  · exact h2

theorem nodupKeys_parseYamlLinesAux :
    ∀ (ls : List Text) (acc : List (Text × Text)), (acc.map Prod.fst).Nodup →
      ((ls.foldl (fun o l => match parseYamlLine l with
        | some (kk, vv) => objSet o kk vv
        | none => o) acc).map Prod.fst).Nodup
  | [], _, h => h
  | l :: ls', acc, h => by
    rw [List.foldl_cons]
    rcases hpl : parseYamlLine l with _ | ⟨kk, vv⟩
    · exact nodupKeys_parseYamlLinesAux ls' acc h
    · exact nodupKeys_parseYamlLinesAux ls' (objSet acc kk vv) (nodupKeys_objSet acc kk vv h)

theorem nodupKeys_parseYamlLines (ls : List Text) :
    ((parseYamlLines ls).map Prod.fst).Nodup :=
  nodupKeys_parseYamlLinesAux ls [] (by simp)

theorem objSet_of_absent (o : List (Text × Text)) (k v : Text)
    (h : ∀ q ∈ o, ¬ q.1 = k) : objSet o k v = o ++ [(k, v)] := by
  rw [objSet, if_neg]
  intro ha
  obtain ⟨p, hp, hpk⟩ := List.any_eq_true.mp ha
  exact h p hp (beq_iff_eq.mp hpk)

theorem foldl_objSet_fresh :
    ∀ (ps acc : List (Text × Text)), ((acc.map Prod.fst ++ ps.map Prod.fst)).Nodup →
      ps.foldl (fun o p => objSet o p.1 p.2) acc = acc ++ ps
  | [], acc, _ => by simp
  | p :: ps', acc, h => by
    have hfresh : ∀ q ∈ acc, ¬ q.1 = p.1 := by
      intro q hq hqp
      have hmem : p.1 ∈ acc.map Prod.fst := List.mem_map.mpr ⟨q, hq, hqp⟩
      have hdisj := (List.nodup_append.mp h).2.2
      exact hdisj hmem (by simp)
    rw [List.foldl_cons, objSet_of_absent acc p.1 p.2 hfresh,
      foldl_objSet_fresh ps' (acc ++ [p]) (by simpa [List.append_assoc] using h)]
    simp

theorem parseYamlLines_map_line (ps : List (Text × Text))
    (hclean : ∀ p ∈ ps, ¬ ((':' :: ' ' :: []) <:+: p.1)) :
    ∀ acc : List (Text × Text),
      (ps.map fun p => p.1 ++ ':' :: ' ' :: p.2).foldl (fun o l =>
        match parseYamlLine l with
        | some (kk, vv) => objSet o kk vv
        | none => o) acc
      = ps.foldl (fun o p => objSet o p.1 p.2) acc := by
  induction ps with
  | nil => intro acc; rfl
  | cons p ps' ih =>
    intro acc
    rw [List.map_cons, List.foldl_cons, List.foldl_cons,
      parseYamlLine_roundtrip p.1 p.2 (hclean p (by simp))]
    exact ih (fun q hq => hclean q (by simp [hq])) (objSet acc p.1 p.2)

theorem parseYamlLines_roundtrip (ps : List (Text × Text))
    (hclean : ∀ p ∈ ps, ¬ ((':' :: ' ' :: []) <:+: p.1))
    (hnodup : (ps.map Prod.fst).Nodup) :
    parseYamlLines (ps.map fun p => p.1 ++ ':' :: ' ' :: p.2) = ps := by
  rw [parseYamlLines, parseYamlLines_map_line ps hclean [],
    foldl_objSet_fresh ps [] (by simpa using hnodup)]
  rfl

theorem lookup_map_self (k v : Text) :
    ∀ o : List (Text × Text), (o.any fun p => p.1 == k) = true →
      lookupProp (o.map fun p => if (p.1 == k) = true then (k, v) else p) k = some v
  | [], hin => by simp at hin
  | p :: o', hin => by
    cases hpk : (p.1 == k) with
    | true => simp [lookupProp, List.find?, hpk]
    | false =>
      have hin' : (o'.any fun p => p.1 == k) = true := by
        rcases List.any_eq_true.mp hin with ⟨q, hq, hqk⟩
        rcases List.mem_cons.mp hq with rfl | hq2
        · exact absurd hqk (by simp [hpk])
        · exact List.any_eq_true.mpr ⟨q, hq2, hqk⟩
      have := lookup_map_self k v o' hin'
      simpa [lookupProp, List.find?, hpk] using this

theorem lookup_map_other (k v k' : Text) (hne : ¬ k' = k) :
    ∀ o : List (Text × Text),
      lookupProp (o.map fun p => if (p.1 == k) = true then (k, v) else p) k'
        = lookupProp o k'
  | [] => rfl
  | p :: o' => by
    have hkk' : (k == k') = false := beq_eq_false_iff_ne.mpr (fun hh => hne hh.symm)
    cases hpk : (p.1 == k) with
    | true =>
      have hpk' : (p.1 == k') = false := by
        rw [beq_iff_eq.mp hpk]
        exact hkk'
      have := lookup_map_other k v k' hne o'
      simpa [lookupProp, List.find?, hpk, hpk', hkk'] using this
    | false =>
      cases hpk' : (p.1 == k') with
      | true => simp [lookupProp, List.find?, hpk, hpk']
      | false =>
        have := lookup_map_other k v k' hne o'
        simpa [lookupProp, List.find?, hpk, hpk'] using this

theorem lookup_append_pair_self (k v : Text) :
    ∀ o : List (Text × Text), (∀ q ∈ o, (q.1 == k) = false) →
      lookupProp (o ++ [(k, v)]) k = some v
  | [], _ => by simp [lookupProp, List.find?]
  | p :: o', h => by
    have hp := h p (by simp)
    have := lookup_append_pair_self k v o' (fun q hq => h q (by simp [hq]))
    simpa [lookupProp, List.find?, hp] using this

theorem lookup_append_pair_other (k v k' : Text) (hne : ¬ k' = k) :
    ∀ o : List (Text × Text), lookupProp (o ++ [(k, v)]) k' = lookupProp o k'
  | [] => by
    simp [lookupProp, List.find?, beq_eq_false_iff_ne.mpr (fun hh => hne hh.symm)]
  | p :: o' => by
    cases hb : (p.1 == k') with
    | true => simp [lookupProp, List.find?, hb]
    | false =>
      have := lookup_append_pair_other k v k' hne o'
      simpa [lookupProp, List.find?, hb] using this

theorem lookupProp_objSet_self (o : List (Text × Text)) (k v : Text) :
    lookupProp (objSet o k v) k = some v := by
  rw [objSet]
  by_cases ha : (o.any fun p => p.1 == k) = true
  · rw [if_pos ha]
    exact lookup_map_self k v o ha
  · rw [if_neg ha]
    refine lookup_append_pair_self k v o fun q hq => ?_
    cases hb : (q.1 == k) with
    | true => exact absurd (List.any_eq_true.mpr ⟨q, hq, hb⟩) ha
    | false => rfl

theorem lookupProp_objSet_other (o : List (Text × Text)) (k v k' : Text) (hne : ¬ k' = k) :
    lookupProp (objSet o k v) k' = lookupProp o k' := by
  rw [objSet]
  by_cases ha : (o.any fun p => p.1 == k) = true
  · rw [if_pos ha]
    exact lookup_map_other k v k' hne o
  · rw [if_neg ha]
    exact lookup_append_pair_other k v k' hne o

theorem jsIndexOf_go_found (sub : Text) (hsub : ¬ sub = []) :
    ∀ (pre suf : Text) (i : Nat),
      (∀ j, j < pre.length → sub.isPrefixOf (List.drop j (pre ++ suf)) = false) →
      sub.isPrefixOf suf = true →
      jsIndexOfFrom.go sub i (pre ++ suf) = ((i + pre.length : Nat) : Int)
  | [], suf, i, _, hyes => by
    rcases suf with _ | ⟨c, cs⟩
    · rcases sub with _ | ⟨d, ds⟩
      · exact absurd rfl hsub
      · simp [List.isPrefixOf] at hyes
    · rw [List.nil_append]
      simp only [jsIndexOfFrom.go, hyes, if_true]
      simp
  | p :: ps, suf, i, hno, hyes => by
    have h0 : sub.isPrefixOf (p :: (ps ++ suf)) = false := by
      have := hno 0 (by simp)
      simpa using this
    rw [List.cons_append]
    simp only [jsIndexOfFrom.go, h0, Bool.false_eq_true, if_false]
    rw [jsIndexOf_go_found sub hsub ps suf (i + 1)
      (fun j hj => by
        have := hno (j + 1) (by simpa using Nat.succ_lt_succ hj)
        simpa using this) hyes]
    exact congrArg (fun n : Nat => (n : Int)) (by simp; omega)

theorem dash3_not_prefix (I : Text) (hI : ¬ ("---".data <:+: I)) (rest : Text)
    (j : Nat) (hj : j ≤ I.length) :
    ("---".data).isPrefixOf (I.drop j ++ '\n' :: rest) = false := by
  cases hb : ("---".data).isPrefixOf (I.drop j ++ '\n' :: rest) with
  | false => rfl
  | true =>
    exfalso
    have hpre := List.isPrefixOf_iff_prefix.mp hb
    have htake := List.prefix_iff_eq_take.mp hpre
    rw [show ("---".data).length = 3 from rfl] at htake
    by_cases hlen : 3 ≤ (I.drop j).length
    · have hdj : "---".data = (I.drop j).take 3 := by
        rw [htake, List.take_append_eq_append_take,
          show (3 - (I.drop j).length) = 0 from by omega, List.take_zero, List.append_nil]
      have hpre2 : "---".data <+: I.drop j := by
        rw [hdj]
        exact List.take_prefix 3 (I.drop j)
      exact hI (hpre2.isInfix.trans (List.drop_suffix j I).isInfix)
    · have hnl : '\n' ∈ ("---".data : Text) := by
        rw [htake, List.take_append_eq_append_take]
        refine List.mem_append_right _ ?_
        obtain ⟨m, hm⟩ : ∃ m, 3 - (I.drop j).length = m + 1 :=
          ⟨3 - (I.drop j).length - 1, by omega⟩
        rw [hm, List.take_succ_cons]
        exact List.mem_cons_self _ _
      exact absurd hnl (by decide)

theorem jsIndexOf_closing (I S : Text) (hI : ¬ ("---".data <:+: I)) :
    jsIndexOfFrom ("---\n".data ++ (I ++ '\n' :: ("---".data ++ S))) ("---".data) 3
      = ((5 + I.length : Nat) : Int) := by
  rw [jsIndexOfFrom]
  have h1 : ("---".data).isPrefixOf
      (("---\n".data ++ (I ++ '\n' :: ("---".data ++ S))).drop 3) = false := by
    show ("---".data).isPrefixOf ('\n' :: (I ++ '\n' :: ("---".data ++ S))) = false
    simp [List.isPrefixOf]
  simp only [h1, Bool.false_eq_true, if_false]
  show jsIndexOfFrom.go "---".data 4 (I ++ '\n' :: ("---".data ++ S)) = _
  rw [show I ++ '\n' :: ("---".data ++ S) = (I ++ ['\n']) ++ ("---".data ++ S) by simp]
  rw [jsIndexOf_go_found "---".data (by decide) (I ++ ['\n']) ("---".data ++ S) 4
    (fun j hj => by
      have hjI : j ≤ I.length := by simpa using Nat.lt_succ_iff.mp (by simpa using hj)
      rw [List.drop_append_of_le_length (by simpa using Nat.le_succ_of_le hjI),
        List.drop_append_of_le_length hjI]
      have := dash3_not_prefix I hI ("---".data ++ S) j hjI
      simpa using this)
    (List.isPrefixOf_iff_prefix.mpr (List.prefix_append _ _))]
  exact congrArg (fun n : Nat => (n : Int)) (by simp; omega)

theorem frontMatter_block (I S : Text) (tl : List Text)
    (htl : splitNl ("---".data ++ S) = "---".data :: tl)
    (hI : ∀ l ∈ splitNl I, (l == "---".data) = false) :
    frontMatterParse ("---\n".data ++ (I ++ '\n' :: ("---".data ++ S)))
      = (parseYamlLines (splitNl I), (splitNl I).length + 3) ∧
    bodyText ("---\n".data ++ (I ++ '\n' :: ("---".data ++ S))) = joinNl tl := by
  have hlines : splitNl ("---\n".data ++ (I ++ '\n' :: ("---".data ++ S)))
      = "---".data :: (splitNl I ++ "---".data :: tl) := by
    show splitNl ("---".data ++ '\n' :: (I ++ '\n' :: ("---".data ++ S))) = _
    rw [splitNl_append_nl, splitNl_append_nl, htl, splitNl_no_nl "---".data (by decide)]
    rfl
  have hpf : ("---\n".data).isPrefixOf ("---\n".data ++ (I ++ '\n' :: ("---".data ++ S)))
      = true := List.isPrefixOf_iff_prefix.mpr (List.prefix_append _ _)
  have hfind : ((splitNl ("---\n".data ++ (I ++ '\n' :: ("---".data ++ S)))).drop 1).findIdx?
      (fun l => l == ("---".data)) = some (splitNl I).length := by
    rw [hlines]
    show (splitNl I ++ "---".data :: tl).findIdx? (fun l => l == ("---".data)) 0 = _
    rw [findIdx?_split (fun l => l == ("---".data)) (splitNl I) ("---".data) tl 0 hI (by simp)]
    simp
  have hparse : frontMatterParse ("---\n".data ++ (I ++ '\n' :: ("---".data ++ S)))
      = (parseYamlLines (splitNl I), (splitNl I).length + 3) := by
    rw [frontMatterParse]
    simp only [hpf, if_true]
    rw [hfind, hlines]
    show (parseYamlLines ((splitNl I ++ "---".data :: tl).take (splitNl I).length), _) = _
    rw [List.take_left]
  refine ⟨hparse, ?_⟩
  rw [bodyText, hparse, hlines]
  show joinNl (((splitNl I ++ "---".data :: tl)).drop ((splitNl I).length + 1)) = _
  rw [List.drop_append]
  rfl

theorem objSet_ne_nil (o : List (Text × Text)) (k v : Text) : ¬ objSet o k v = [] := by
  rw [objSet]
  by_cases ha : (o.any fun p => p.1 == k) = true
  · rw [if_pos ha]
    rcases o with _ | ⟨p, o'⟩
    · simp at ha
    · simp
  · rw [if_neg ha]
    simp

theorem setProperties_block (I S : Text) (tl : List Text) (newProps : List (Text × Text))
    (hI : ¬ ("---".data <:+: I))
    (hIl : ∀ l ∈ splitNl I, (l == "---".data) = false)
    (htl : splitNl ("---".data ++ S) = "---".data :: tl) :
    setProperties ("---\n".data ++ (I ++ '\n' :: ("---".data ++ S))) newProps
      = "---\n".data ++ (yamlStringify (mergeProps (parseYamlLines (splitNl I)) newProps)
          ++ '\n' :: ("---".data ++ ('\n' :: S))) := by
  rw [setProperties, jsIndexOf_closing I S hI]
  have hcs : (((5 + I.length : Nat) : Int) + 3).toNat = 8 + I.length := by
    rw [show ((5 + I.length : Nat) : Int) + 3 = ((8 + I.length : Nat) : Int) by push_cast; ring,
      Int.toNat_natCast]
  rw [hcs]
  have hdrop : ("---\n".data ++ (I ++ '\n' :: ("---".data ++ S))).drop (8 + I.length) = S := by
    rw [show "---\n".data ++ (I ++ '\n' :: ("---".data ++ S))
        = (("---\n".data ++ I ++ ['\n']) ++ "---".data) ++ S by simp]
    refine List.drop_left' ?_
    have h4 : ("---\n".data).length = 4 := rfl
    have h3 : ("---".data).length = 3 := rfl
    simp [h4, h3]
    omega
  rw [hdrop, properties, (frontMatter_block I S tl htl hIl).1]
  simp [List.append_assoc]

theorem setProperties_core (B S : Text) (tl : List Text) (k v : Text)
    (hB : ¬ ("---".data <:+: B))
    (htl : splitNl ("---".data ++ S) = "---".data :: tl)
    (hk : ¬ ((':' :: ' ' :: []) <:+: k)) (hknl : '\n' ∉ k) (hvnl : '\n' ∉ v) :
    lookupProp (properties
        (setProperties ("---\n".data ++ (B ++ '\n' :: ("---".data ++ S))) [(k, v)])) k
      = some v ∧
    (∀ k', ¬ k' = k →
      lookupProp (properties
          (setProperties ("---\n".data ++ (B ++ '\n' :: ("---".data ++ S))) [(k, v)])) k'
        = lookupProp (properties ("---\n".data ++ (B ++ '\n' :: ("---".data ++ S)))) k') ∧
    bodyText (setProperties ("---\n".data ++ (B ++ '\n' :: ("---".data ++ S))) [(k, v)]) = S ∧
    bodyText ("---\n".data ++ (B ++ '\n' :: ("---".data ++ S))) = joinNl tl := by
  have hBl : ∀ l ∈ splitNl B, (l == "---".data) = false := by
    intro l hl
    cases hb : (l == "---".data) with
    | false => rfl
    | true =>
      have hinf := mem_splitNl_infix B l hl
      rw [beq_iff_eq.mp hb] at hinf
      exact absurd hinf hB
  have hold := frontMatter_block B S tl htl hBl
  have hpropsT : properties ("---\n".data ++ (B ++ '\n' :: ("---".data ++ S)))
      = parseYamlLines (splitNl B) := by
    rw [properties, hold.1]
  have holdclean : ∀ p ∈ parseYamlLines (splitNl B),
      ¬ ((':' :: ' ' :: []) <:+: p.1) ∧ '\n' ∉ p.1 ∧ '\n' ∉ p.2 := by
    intro p hp
    obtain ⟨l, hl, hpl⟩ := mem_parseYamlLines _ p hp
    have hnl := mem_splitNl_no_nl B l hl
    have hdec := splitAtSub_decomp (':' :: ' ' :: []) l p.1 p.2 hpl
    rw [hdec] at hnl
    refine ⟨splitAtSub_before_clean _ (by decide) l p.1 p.2 hpl, ?_, ?_⟩
    · exact fun hmem => hnl (by simp [hmem])
    · exact fun hmem => hnl (by simp [hmem])
  have hmob : mergeProps (parseYamlLines (splitNl B)) [(k, v)]
      = objSet (parseYamlLines (splitNl B)) k v := rfl
  have hmergclean : ∀ p ∈ objSet (parseYamlLines (splitNl B)) k v,
      ¬ ((':' :: ' ' :: []) <:+: p.1) ∧ '\n' ∉ p.1 ∧ '\n' ∉ p.2 := by
    intro p hp
    rcases mem_objSet _ _ _ p hp with rfl | hp2
    · exact ⟨hk, hknl, hvnl⟩
    · exact holdclean p hp2
  have hmergnodup : ((objSet (parseYamlLines (splitNl B)) k v).map Prod.fst).Nodup :=
    nodupKeys_objSet _ k v (nodupKeys_parseYamlLines _)
  have hres := setProperties_block B S tl [(k, v)] hB hBl htl
  rw [hmob] at hres
  -- the yaml text of the merged object and its line structure
  have hYlines : splitNl (yamlStringify (objSet (parseYamlLines (splitNl B)) k v))
      = (objSet (parseYamlLines (splitNl B)) k v).map (fun p => p.1 ++ ':' :: ' ' :: p.2) := by
    rw [yamlStringify, splitNl_joinNl_flat _ (by
        intro hmap
        exact objSet_ne_nil _ k v (List.map_eq_nil_iff.mp hmap)),
      flatMap_splitNl_id]
    intro l hl
    obtain ⟨p, hp, rfl⟩ := List.mem_map.mp hl
    have hc := hmergclean p hp
    intro hmem
    rcases List.mem_append.mp (by simpa using hmem) with h2 | h2
    · exact hc.2.1 h2
    · exact hc.2.2 h2
  have hYl : ∀ l ∈ splitNl (yamlStringify (objSet (parseYamlLines (splitNl B)) k v)),
      (l == "---".data) = false := by
    intro l hl
    rw [hYlines] at hl
    obtain ⟨p, hp, rfl⟩ := List.mem_map.mp hl
    cases hb : (p.1 ++ ':' :: ' ' :: p.2 == "---".data) with
    | false => rfl
    | true =>
      have heq := beq_iff_eq.mp hb
      have : ':' ∈ ("---".data : Text) := by
        rw [← heq]
        simp
      exact absurd this (by decide)
  have htl' : splitNl ("---".data ++ ('\n' :: S)) = "---".data :: splitNl S := by
    rw [splitNl_append_nl, splitNl_no_nl "---".data (by decide)]
    rfl
  have hnew := frontMatter_block (yamlStringify (objSet (parseYamlLines (splitNl B)) k v))
    ('\n' :: S) (splitNl S) htl' hYl
  have hpropsR : properties
      (setProperties ("---\n".data ++ (B ++ '\n' :: ("---".data ++ S))) [(k, v)])
      = objSet (parseYamlLines (splitNl B)) k v := by
    rw [hres, properties, hnew.1, hYlines,
      parseYamlLines_roundtrip _ (fun p hp => (hmergclean p hp).1) hmergnodup]
  refine ⟨?_, ?_, ?_, hold.2⟩
  · rw [hpropsR]
    exact lookupProp_objSet_self _ k v
  · intro k' hk'
    rw [hpropsR, hpropsT]
    exact lookupProp_objSet_other _ k v k' hk'
  · rw [hres, hnew.2, joinNl_splitNl]

/-- C6 (amended): on a note whose front-matter block contains no stray
`---` and whose body follows the closing delimiter on its own line, writing
property `k = v` (for a key without `": "` or newlines and a value without
newlines) makes `k` read back as `v`, preserves every other property's
value, and preserves the body except that the write prepends one newline
to a non-empty body (the write template joins the new front matter and the
sliced tail with a newline the slice already kept). -/
theorem setProperties_roundtrip (B R k v : Text)
    (hB : ¬ ("---".data <:+: B))
    (hR : R = [] ∨ ∃ R', R = '\n' :: R')
    (hk : ¬ ((':' :: ' ' :: []) <:+: k)) (hknl : '\n' ∉ k) (hvnl : '\n' ∉ v) :
    lookupProp (properties
        (setProperties ("---\n".data ++ B ++ "\n---".data ++ R) [(k, v)])) k = some v ∧
    (∀ k', ¬ k' = k →
      lookupProp (properties
          (setProperties ("---\n".data ++ B ++ "\n---".data ++ R) [(k, v)])) k'
        = lookupProp (properties ("---\n".data ++ B ++ "\n---".data ++ R)) k') ∧
    (R = [] →
      bodyText (setProperties ("---\n".data ++ B ++ "\n---".data ++ R) [(k, v)])
        = bodyText ("---\n".data ++ B ++ "\n---".data ++ R)) ∧
    (∀ R', R = '\n' :: R' →
      bodyText (setProperties ("---\n".data ++ B ++ "\n---".data ++ R) [(k, v)])
        = '\n' :: bodyText ("---\n".data ++ B ++ "\n---".data ++ R)) := by
  have hT : ("---\n".data ++ B ++ "\n---".data ++ R)
      = "---\n".data ++ (B ++ '\n' :: ("---".data ++ R)) := by
    simp only [List.append_assoc]
    rfl
  rw [hT]
  rcases hR with rfl | ⟨R', rfl⟩
  · have htl : splitNl ("---".data ++ ([] : Text)) = "---".data :: [] := by
      rw [List.append_nil, splitNl_no_nl "---".data (by decide)]
    have hcore := setProperties_core B [] [] k v hB htl hk hknl hvnl
    refine ⟨hcore.1, hcore.2.1, fun _ => ?_, fun R' hR' => absurd hR' (by simp)⟩
    rw [hcore.2.2.1, hcore.2.2.2]
    rfl
  · have htl : splitNl ("---".data ++ ('\n' :: R')) = "---".data :: splitNl R' := by
      rw [splitNl_append_nl, splitNl_no_nl "---".data (by decide)]
      rfl
    have hcore := setProperties_core B ('\n' :: R') (splitNl R') k v hB htl hk hknl hvnl
    refine ⟨hcore.1, hcore.2.1, fun h => absurd h (by simp), fun R'' hR'' => ?_⟩
    obtain rfl : R' = R'' := by simpa using hR''
    rw [hcore.2.2.1, hcore.2.2.2, joinNl_splitNl]

/-- Witness for C6 (amended) on the concrete note
`---\nk: v\n---\nbody`: writing `j = w` reads back, keeps `k`, and the
body becomes newline-prefixed. -/
theorem setProperties_roundtrip_witness :
    lookupProp (properties (setProperties
        ("---\n".data ++ "k: v".data ++ "\n---".data ++ "\nbody".data)
        [("j".data, "w".data)])) ("j".data) = some ("w".data) ∧
    lookupProp (properties (setProperties
        ("---\n".data ++ "k: v".data ++ "\n---".data ++ "\nbody".data)
        [("j".data, "w".data)])) ("k".data)
      = lookupProp (properties
          ("---\n".data ++ "k: v".data ++ "\n---".data ++ "\nbody".data)) ("k".data) ∧
    bodyText (setProperties
        ("---\n".data ++ "k: v".data ++ "\n---".data ++ "\nbody".data)
        [("j".data, "w".data)])
      = '\n' :: bodyText
          ("---\n".data ++ "k: v".data ++ "\n---".data ++ "\nbody".data) := by
  refine ⟨?_, ?_, ?_⟩
  · exact (setProperties_roundtrip ("k: v".data) ("\nbody".data) ("j".data) ("w".data)
      (by decide) (Or.inr ⟨"body".data, rfl⟩) (by decide) (by decide) (by decide)).1
  · exact (setProperties_roundtrip ("k: v".data) ("\nbody".data) ("j".data) ("w".data)
      (by decide) (Or.inr ⟨"body".data, rfl⟩) (by decide) (by decide) (by decide)).2.1
      ("k".data) (by decide)
  · exact (setProperties_roundtrip ("k: v".data) ("\nbody".data) ("j".data) ("w".data)
      (by decide) (Or.inr ⟨"body".data, rfl⟩) (by decide) (by decide) (by decide)).2.2.2
      ("body".data) rfl

/-- C6 counterexample: on the well-formed note `---\nk: v\n---\nbody`,
writing a property sets the new key but the body after the front-matter
block is no longer `body` (a newline is inserted), so the claim's
body-unchanged part is false as stated. -/
theorem setProperties_body_counterexample :
    bodyText ("---\nk: v\n---\nbody".data) = "body".data ∧
    lookupProp (properties (setProperties ("---\nk: v\n---\nbody".data)
        [("j".data, "w".data)])) ("j".data) = some ("w".data) ∧
    ¬ bodyText (setProperties ("---\nk: v\n---\nbody".data)
        [("j".data, "w".data)]) = "body".data := by
  decide

theorem dropWhile_head_false (p : Char → Bool) (l : Text)
    (h : ∀ c, l.head? = some c → p c = false) : l.dropWhile p = l := by
  rcases l with _ | ⟨c, cs⟩
  · rfl
  · rw [List.dropWhile_cons, h c rfl]
    simp

theorem takeWhile_append_all (p : Char → Bool) :
    ∀ (a b : Text), (∀ c ∈ a, p c = true) →
      (a ++ b).takeWhile p = a ++ b.takeWhile p ∧ (a ++ b).dropWhile p = b.dropWhile p
  | [], b, _ => ⟨rfl, rfl⟩
  | c :: cs, b, h => by
    have hc : p c = true := h c (by simp)
    have ih := takeWhile_append_all p cs b (fun d hd => h d (by simp [hd]))
    constructor
    · rw [List.cons_append, List.takeWhile_cons, hc, if_pos rfl, ih.1]
      rfl
    · rw [List.cons_append, List.dropWhile_cons, hc, if_pos rfl, ih.2]

theorem takeWhile_head_false (p : Char → Bool) (l : Text)
    (h : ∀ c, l.head? = some c → p c = false) : l.takeWhile p = [] := by
  rcases l with _ | ⟨c, cs⟩
  · rfl
  · rw [List.takeWhile_cons, h c rfl]
    simp

theorem trim_eq_self (t : Text)
    (h1 : ∀ c, t.head? = some c → isWs c = false)
    (h2 : ∀ c, t.getLast? = some c → isWs c = false) : trim t = t := by
  rw [trim, dropWhile_head_false isWs t h1,
    dropWhile_head_false isWs t.reverse (fun c hc => h2 c (by rwa [List.head?_reverse] at hc)),
    List.reverse_reverse]

theorem afterFirst_append_not_mem (c : Char) :
    ∀ (a b : Text), c ∉ a → afterFirst c (a ++ b) = afterFirst c b
  | [], b, _ => rfl
  | d :: ds, b, h => by
    rw [List.cons_append, afterFirst,
      if_neg (fun hh => h (by rw [← hh]; exact List.mem_cons_self d ds))]
    exact afterFirst_append_not_mem c ds b (fun hh => h (List.mem_cons_of_mem d hh))

theorem afterFirst_cons_self (c : Char) (l : Text) : afterFirst c (c :: l) = some l := by
  rw [afterFirst, if_pos rfl]

theorem joinNl_append : ∀ (A B : List Text), ¬ A = [] → ¬ B = [] →
    joinNl (A ++ B) = joinNl A ++ '\n' :: joinNl B
  | [], _, hA, _ => absurd rfl hA
  | [a], B, _, hB => by
    rw [List.singleton_append, joinNl_cons_ne_nil a B hB]
    rfl
  | a :: a' :: A', B, _, hB => by
    rw [List.cons_append, joinNl_cons_ne_nil a ((a' :: A') ++ B) (by simp),
      joinNl_append (a' :: A') B (by simp) hB,
      joinNl_cons_ne_nil a (a' :: A') (by simp)]
    simp

theorem joinNl_flatMap_splitNl : ∀ ps : List Text, joinNl (ps.flatMap splitNl) = joinNl ps
  | [] => rfl
  | [x] => by
    simp only [List.flatMap_cons, List.flatMap_nil, List.append_nil]
    rw [show joinNl [x] = x from rfl]
    exact joinNl_splitNl x
  | x :: y :: ys => by
    rw [List.flatMap_cons,
      joinNl_append (splitNl x) ((y :: ys).flatMap splitNl)
        (splitNl_ne_nil x)
        (fun hh => by
          rw [List.flatMap_cons] at hh
          exact splitNl_ne_nil y (List.append_eq_nil.mp hh).1),
      joinNl_splitNl, joinNl_flatMap_splitNl (y :: ys),
      joinNl_cons_ne_nil x (y :: ys) (by simp)]

theorem joinNl_head?_cons (c : Char) (x : Text) (xs : List Text) :
    (joinNl ((c :: x) :: xs)).head? = some c := by
  rcases xs with _ | ⟨y, ys⟩
  · rfl
  · rfl

theorem joinNl_getLast?_of_last :
    ∀ (ps : List Text) (a : Text), ps.getLast? = some a → ¬ a = [] →
      (joinNl ps).getLast? = a.getLast?
  | [], a, ha, _ => by simp at ha
  | [x], a, ha, hane => by
    obtain rfl : x = a := by simpa using ha
    rfl
  | x :: y :: ys, a, ha, hane => by
    have ha' : (y :: ys).getLast? = some a := by
      rw [← ha]
      exact (List.getLast?_cons_cons ..).symm
    have hrec := joinNl_getLast?_of_last (y :: ys) a ha' hane
    have hne : ¬ joinNl (y :: ys) = [] := by
      intro hh
      rw [hh] at hrec
      rcases a with _ | ⟨c, cs⟩
      · exact hane rfl
      · have hs : ((c :: cs).getLast?).isSome := List.getLast?_isSome.mpr (by simp)
        rw [← hrec] at hs
        simp at hs
    rw [joinNl_cons_ne_nil x (y :: ys) (by simp),
      List.getLast?_append_of_ne_nil _ (by simp),
      show '\n' :: joinNl (y :: ys) = ['\n'] ++ joinNl (y :: ys) from rfl,
      List.getLast?_append_of_ne_nil _ hne, hrec]

theorem truthyS_of_ne_nil (id : Text) (h : ¬ id = []) : truthyS (some id) = true := by
  rcases id with _ | ⟨c, cs⟩
  · exact absurd rfl h
  · rfl

theorem no_nl_of_all_word (id : Text) (hw : id.all isWordChar = true) : '\n' ∉ id := by
  intro hmem
  have := List.all_eq_true.mp hw '\n' hmem
  exact absurd this (by decide)

theorem line_testIssueLine (x : Char) (tail : Text) :
    testIssueLine ('-' :: ' ' :: '[' :: x :: ']' :: ' ' :: tail) = true := rfl

theorem line_getLast (x : Char) (t id : Text) :
    ('-' :: ' ' :: '[' :: x :: ']' :: ' ' :: (t ++ ' ' :: '(' :: (id ++ [')']))).getLast?
      = some ')' := by
  show ((['-', ' ', '[', x, ']', ' '] : Text) ++ (t ++ ' ' :: '(' :: (id ++ [')']))).getLast?
    = some ')'
  rw [List.getLast?_append_of_ne_nil _ (by simp),
    List.getLast?_append_of_ne_nil _ (by simp),
    show (' ' :: '(' :: (id ++ [')']) : Text) = [' ', '('] ++ (id ++ [')']) from rfl,
    List.getLast?_append_of_ne_nil _ (by simp), List.getLast?_concat]

theorem line_extractId (x : Char) (t id : Text) (hx : ¬ x = '(') (ht : '(' ∉ t) :
    extractId ('-' :: ' ' :: '[' :: x :: ']' :: ' ' :: (t ++ ' ' :: '(' :: (id ++ [')'])))
      = some id := by
  rw [extractId, line_getLast x t id, if_pos (by simp)]
  show Option.map List.dropLast
      (afterFirst '(' ((['-', ' ', '[', x, ']', ' '] : Text)
        ++ (t ++ ' ' :: '(' :: (id ++ [')'])))) = some id
  rw [afterFirst_append_not_mem '(' _ _ (by simp [Ne.symm, fun hh : x = '(' => hx hh]),
    afterFirst_append_not_mem '(' t _ ht,
    show (' ' :: '(' :: (id ++ [')']) : Text) = ' ' :: ('(' :: (id ++ [')'])) from rfl,
    afterFirst, if_neg (by decide), afterFirst_cons_self]
  simp [List.dropLast_concat]

theorem strip_of_shape (pre id : Text) (hpre : ¬ pre = [])
    (hlast : ∀ c, pre.getLast? = some c → isWs c = false)
    (hid : ¬ id = []) (hidw : id.all isWordChar = true) :
    stripIdSuffix (pre ++ ' ' :: '(' :: (id ++ [')'])) = pre := by
  have hrev : (pre ++ ' ' :: '(' :: (id ++ [')'])).reverse
      = ')' :: (id.reverse ++ '(' :: ' ' :: pre.reverse) := by
    rw [show (' ' :: '(' :: (id ++ [')']) : Text) = ([' ', '('] ++ id) ++ [')'] by simp]
    simp [List.reverse_append]
  have htw := takeWhile_append_all isWordChar id.reverse ('(' :: ' ' :: pre.reverse)
    (fun c hc => List.all_eq_true.mp hidw c (List.mem_reverse.mp hc))
  have htw1 : (id.reverse ++ '(' :: ' ' :: pre.reverse).takeWhile isWordChar = id.reverse := by
    rw [htw.1, takeWhile_head_false isWordChar _ (fun c hc => by
      obtain rfl : '(' = c := by simpa using hc
      decide)]
    simp
  have htw2 : (id.reverse ++ '(' :: ' ' :: pre.reverse).dropWhile isWordChar
      = '(' :: ' ' :: pre.reverse := by
    rw [htw.2, dropWhile_head_false isWordChar _ (fun c hc => by
      obtain rfl : '(' = c := by simpa using hc
      decide)]
  rw [stripIdSuffix, hrev]
  simp only [htw1, htw2]
  rw [if_pos (by simp [hid])]
  show (((' ' :: pre.reverse).dropWhile isWs)).reverse = pre
  rw [List.dropWhile_cons, if_pos (by decide),
    dropWhile_head_false isWs pre.reverse (fun c hc => hlast c (by rwa [List.head?_reverse] at hc)),
    List.reverse_reverse]

theorem dropWhile_space_cons (t : Text) (hth : ∀ c, t.head? = some c → isWs c = false) :
    (' ' :: t).dropWhile isWs = t := by
  rw [List.dropWhile_cons, if_pos (by decide), dropWhile_head_false isWs t hth]

theorem line_parse_x (t : Text) (hth : ∀ c, t.head? = some c → isWs c = false) :
    parseIssueLine ('-' :: ' ' :: '[' :: 'x' :: ']' :: ' ' :: t) = (some 'x', some t) := by
  rw [show parseIssueLine ('-' :: ' ' :: '[' :: 'x' :: ']' :: ' ' :: t)
      = (some 'x', some ((' ' :: t).dropWhile isWs)) from rfl,
    dropWhile_space_cons t hth]

theorem line_parse_space (t : Text) (hth : ∀ c, t.head? = some c → isWs c = false) :
    parseIssueLine ('-' :: ' ' :: '[' :: ' ' :: ']' :: ' ' :: t) = (some ' ', some t) := by
  rw [show parseIssueLine ('-' :: ' ' :: '[' :: ' ' :: ']' :: ' ' :: t)
      = (some ' ', some ((' ' :: t).dropWhile isWs)) from rfl,
    dropWhile_space_cons t hth]

theorem stepLine_issueLine (acc : List Issue) (x : Char) (t id : Text)
    (hx : x = 'x' ∨ x = ' ')
    (htne : ¬ t = []) (htp : '(' ∉ t)
    (hth : ∀ c, t.head? = some c → isWs c = false)
    (htl : ∀ c, t.getLast? = some c → isWs c = false)
    (hid : ¬ id = []) (hidw : id.all isWordChar = true) :
    stepLine acc ('-' :: ' ' :: '[' :: x :: ']' :: ' ' :: (t ++ ' ' :: '(' :: (id ++ [')'])))
      = { id := some id, title := some t, description := none,
          status := some (if x = 'x' then Status.closed else Status.open'),
          statusReason := none, milestoneId := none, projectId := none } :: acc := by
  have hxp : ¬ x = '(' := by rcases hx with rfl | rfl <;> decide
  have hassoc : '-' :: ' ' :: '[' :: x :: ']' :: ' ' :: (t ++ ' ' :: '(' :: (id ++ [')']))
      = ((['-', ' ', '[', x, ']', ' '] : Text) ++ t) ++ (' ' :: '(' :: (id ++ [')'])) := by
    simp
  have hstrip : stripIdSuffix
      ('-' :: ' ' :: '[' :: x :: ']' :: ' ' :: (t ++ ' ' :: '(' :: (id ++ [')'])))
      = '-' :: ' ' :: '[' :: x :: ']' :: ' ' :: t := by
    rw [hassoc, strip_of_shape ((['-', ' ', '[', x, ']', ' '] : Text) ++ t) id
      (by simp)
      (fun c hc => htl c (by rwa [List.getLast?_append_of_ne_nil _ htne] at hc))
      hid hidw]
    rfl
  rcases hx with rfl | rfl
  · have hparse : parseIssueLine (stripIdSuffix
        ('-' :: ' ' :: '[' :: 'x' :: ']' :: ' ' :: (t ++ ' ' :: '(' :: (id ++ [')'])))) 
        = (some 'x', some t) := by
      rw [hstrip]
      exact line_parse_x t hth
    simp [stepLine, line_testIssueLine, line_extractId 'x' t id hxp htp,
      truthyS_of_ne_nil id hid, hparse]
  · have hparse : parseIssueLine (stripIdSuffix
        ('-' :: ' ' :: '[' :: ' ' :: ']' :: ' ' :: (t ++ ' ' :: '(' :: (id ++ [')'])))) 
        = (some ' ', some t) := by
      rw [hstrip]
      exact line_parse_space t hth
    simp [stepLine, line_testIssueLine, line_extractId ' ' t id hxp htp,
      truthyS_of_ne_nil id hid, hparse]

theorem stepLine_descLine (cur : Issue) (rest : List Issue) (d : Text)
    (h2 : 2 ≤ d.length) (hdh : ∀ c, d.head? = some c → isWs c = false) :
    stepLine (cur :: rest) ('\t' :: '-' :: ' ' :: d)
      = { cur with description := some d } :: rest := by
  rcases d with _ | ⟨c, d1⟩
  · simp at h2
  rcases d1 with _ | ⟨e, d2⟩
  · simp at h2
  have ht1 : testIssueLine ('\t' :: '-' :: ' ' :: (c :: e :: d2)) = false := rfl
  have ht2 : testDescLine ('\t' :: '-' :: ' ' :: (c :: e :: d2)) = true := by
    rw [testDescLine]
    have hc : isWs c = false := hdh c rfl
    simp [List.takeWhile_cons, List.dropWhile_cons, hc,
      show isWs '\t' = true from rfl, show isWs '-' = false from rfl]
  have ht3 : extractDesc ('\t' :: '-' :: ' ' :: (c :: e :: d2)) = c :: e :: d2 := rfl
  simp [stepLine, ht1, ht2, ht3]

theorem contains_false (l : Text) (c : Char) (h : l.contains c = false) : c ∉ l := by
  intro hm
  have h3 : l.contains c = true := List.elem_iff.mpr hm
  rw [h3] at h
  exact Bool.noConfusion h

theorem compactJoinSpace_four (cb t paren : Text) (hcb : ¬ cb = []) (ht : ¬ t = [])
    (hp : ¬ paren = []) :
    compactJoinSpace [some (['-'] : Text), some cb, some t, some paren]
      = '-' :: ' ' :: (cb ++ ' ' :: (t ++ ' ' :: paren)) := by
  have h2 : cb.isEmpty = false := by simpa using hcb
  have h3 : t.isEmpty = false := by simpa using ht
  have h4 : paren.isEmpty = false := by simpa using hp
  rw [compactJoinSpace]
  simp only [List.filterMap_cons, h2, h3, h4]
  show joinSpace [['-'], cb, t, paren] = _
  show (['-'] : Text) ++ ' ' :: joinSpace [cb, t, paren] = _
  rw [show joinSpace [cb, t, paren] = cb ++ ' ' :: joinSpace [t, paren] from rfl,
    show joinSpace [t, paren] = t ++ ' ' :: joinSpace [paren] from rfl,
    show joinSpace [paren] = paren from rfl]
  rfl

theorem hash_false_dash (r : Text) : isHashSpaceLine ('-' :: r) = false := rfl

theorem hash_false_tab (r : Text) : isHashSpaceLine ('\t' :: r) = false := rfl

theorem head_false_of_match (t : Text)
    (h : (match t.head? with | some c => !isWs c | none => false) = true) :
    ∀ c, t.head? = some c → isWs c = false := by
  intro c hc
  rw [hc] at h
  simpa using h

theorem last_false_of_match (t : Text)
    (h : (match t.getLast? with | some c => !isWs c | none => false) = true) :
    ∀ c, t.getLast? = some c → isWs c = false := by
  intro c hc
  rw [hc] at h
  simpa using h

theorem line_no_nl (x : Char) (t id : Text) (hx : ¬ x = '\n')
    (htnl : '\n' ∉ t) (hidnl : '\n' ∉ id) :
    '\n' ∉ ('-' :: ' ' :: '[' :: x :: ']' :: ' ' :: (t ++ ' ' :: '(' :: (id ++ [')']))) := by
  intro hm
  simp only [List.mem_cons, List.mem_append] at hm
  rcases hm with h | h | h | h | h | h | h | h | h | h | h | h
  · simp at h
  · simp at h
  · simp at h
  · exact hx h.symm
  · simp at h
  · simp at h
  · exact htnl h
  · simp at h
  · simp at h
  · exact hidnl h
  · simp at h
  · simp at h

theorem descline_no_nl (d : Text) (hdnl : '\n' ∉ d) :
    '\n' ∉ ('\t' :: '-' :: ' ' :: d) := by
  intro hm
  simp only [List.mem_cons] at hm
  rcases hm with h | h | h | h
  · simp at h
  · simp at h
  · simp at h
  · exact hdnl h

theorem block_of_valid (i : Issue) (h : validIssue i = true) :
    (∀ acc, (splitNl (toListItem i)).foldl stepLine acc = i :: acc) ∧
    (∀ l ∈ splitNl (toListItem i), isHashSpaceLine l = false) ∧
    (∃ x', toListItem i = '-' :: x') ∧
    (∃ c, (toListItem i).getLast? = some c ∧ isWs c = false) ∧
    ((⟨i.id, i.title, i.description.map trim, i.status, i.statusReason, none, none⟩ : Issue)
      = i) := by
  obtain ⟨oid, ot, od, ost, osr, omi, opr⟩ := i
  rcases oid with _ | id
  · rw [validIssue] at h
    simp at h
  rcases ot with _ | t
  · rw [validIssue] at h
    simp at h
  rcases ost with _ | st
  · rw [validIssue] at h
    simp at h
  rw [validIssue] at h
  simp only [Bool.and_eq_true] at h
  obtain ⟨⟨⟨⟨⟨⟨⟨hid1, hid2⟩, ⟨⟨⟨⟨ht1, ht2⟩, ht3⟩, ht4⟩, ht5⟩⟩, hst2⟩, hsr⟩, hmi⟩, hpr⟩, hdm⟩ := h
  obtain rfl : osr = none := beq_iff_eq.mp hsr
  obtain rfl : omi = none := beq_iff_eq.mp hmi
  obtain rfl : opr = none := beq_iff_eq.mp hpr
  have hidne : ¬ id = [] := by simpa using hid1
  have hidw : id.all isWordChar = true := hid2
  have htne : ¬ t = [] := by simpa using ht1
  have htp : '(' ∉ t := contains_false t '(' (by simpa using ht2)
  have htnl : '\n' ∉ t := contains_false t '\n' (by simpa using ht3)
  have hth := head_false_of_match t ht4
  have htl := last_false_of_match t ht5
  have hidnl : '\n' ∉ id := no_nl_of_all_word id hid2
  rcases st with _ | _
  · rcases od with _ | d
    · have hrep : toListItem ⟨some id, some t, none, some Status.open', none, none, none⟩
          = '-' :: ' ' :: '[' :: ' ' :: ']' :: ' ' :: (t ++ ' ' :: '(' :: (id ++ [')'])) := by
        have h0 : toListItem ⟨some id, some t, none, some Status.open', none, none, none⟩
            = compactJoinSpace [some ("-".data), some ("[ ]".data), some t,
                some ('(' :: (id ++ [')']))] := rfl
        rw [h0]
        exact compactJoinSpace_four ("[ ]".data) t ('(' :: (id ++ [')'])) (by decide) htne (by simp)
      have hnl := line_no_nl ' ' t id (by decide) htnl hidnl
      refine ⟨?_, ?_, ?_, ?_, ?_⟩
      · intro acc
        rw [hrep, splitNl_no_nl _ hnl, List.foldl_cons, List.foldl_nil,
          stepLine_issueLine acc ' ' t id (Or.inr rfl) htne htp hth htl hidne hidw]
        rfl
      · rw [hrep, splitNl_no_nl _ hnl]
        intro l hl
        obtain rfl := List.mem_singleton.mp hl
        exact hash_false_dash _
      · exact ⟨_, hrep⟩
      · exact ⟨')', by rw [hrep]; exact line_getLast ' ' t id, by decide⟩
      · rfl
    · have hdm2 : (decide (2 ≤ d.length) && !(d.contains '\n') &&
          (match d.head? with | some c => !isWs c | none => false) &&
          (match d.getLast? with | some c => !isWs c | none => false)) = true := hdm
      simp only [Bool.and_eq_true] at hdm2
      obtain ⟨⟨⟨hd1, hd2⟩, hd3⟩, hd4⟩ := hdm2
      have hd1' : 2 ≤ d.length := by simpa using hd1
      have hdne : ¬ d = [] := by
        intro hh
        rw [hh] at hd1'
        exact absurd hd1' (by decide)
      have hdnl : '\n' ∉ d := contains_false d '\n' (by simpa using hd2)
      have hdh := head_false_of_match d hd3
      have hdl := last_false_of_match d hd4
      have hrep : toListItem ⟨some id, some t, some d, some Status.open', none, none, none⟩
          = ('-' :: ' ' :: '[' :: ' ' :: ']' :: ' ' :: (t ++ ' ' :: '(' :: (id ++ [')'])))
            ++ '\n' :: '\t' :: '-' :: ' ' :: d := by
        have h0 : toListItem ⟨some id, some t, some d, some Status.open', none, none, none⟩
            = (if (!d.isEmpty) = true
                then compactJoinSpace [some ("-".data), some ("[ ]".data), some t,
                  some ('(' :: (id ++ [')']))] ++ '\n' :: '\t' :: '-' :: ' ' :: d
                else compactJoinSpace [some ("-".data), some ("[ ]".data), some t,
                  some ('(' :: (id ++ [')']))]) := rfl
        rw [h0, if_pos (show (!d.isEmpty) = true by simpa using hdne)]
        exact congrArg (fun z => z ++ '\n' :: '\t' :: '-' :: ' ' :: d)
          (compactJoinSpace_four ("[ ]".data) t ('(' :: (id ++ [')'])) (by decide) htne (by simp))
      have hnl := line_no_nl ' ' t id (by decide) htnl hidnl
      have hnd := descline_no_nl d hdnl
      refine ⟨?_, ?_, ?_, ?_, ?_⟩
      · intro acc
        rw [hrep, splitNl_append_nl, splitNl_no_nl _ hnl, splitNl_no_nl _ hnd,
          List.singleton_append, List.foldl_cons, List.foldl_cons, List.foldl_nil,
          stepLine_issueLine acc ' ' t id (Or.inr rfl) htne htp hth htl hidne hidw,
          stepLine_descLine _ acc d hd1' hdh]
        rfl
      · rw [hrep, splitNl_append_nl, splitNl_no_nl _ hnl, splitNl_no_nl _ hnd,
          List.singleton_append]
        intro l hl
        rcases List.mem_cons.mp hl with rfl | hl2
        · exact hash_false_dash _
        · obtain rfl := List.mem_singleton.mp hl2
          exact hash_false_tab _
      · exact ⟨' ' :: '[' :: ' ' :: ']' :: ' ' :: (t ++ ' ' :: '(' :: (id ++ [')']))
            ++ '\n' :: '\t' :: '-' :: ' ' :: d, by rw [hrep]; rfl⟩
      · obtain ⟨c, hc⟩ : ∃ c, d.getLast? = some c := by
          have hs : d.getLast?.isSome = true := List.getLast?_isSome.mpr hdne
          exact Option.isSome_iff_exists.mp hs
        refine ⟨c, ?_, hdl c hc⟩
        rw [hrep, List.getLast?_append_of_ne_nil _ (by simp),
          show ('\n' :: '\t' :: '-' :: ' ' :: d : Text) = ['\n', '\t', '-', ' '] ++ d from rfl,
          List.getLast?_append_of_ne_nil _ hdne, hc]
      · exact congrArg
          (fun z => Issue.mk (some id) (some t) z (some Status.open') none none none)
          (congrArg some (trim_eq_self d hdh hdl))
  · rcases od with _ | d
    · have hrep : toListItem ⟨some id, some t, none, some Status.closed, none, none, none⟩
          = '-' :: ' ' :: '[' :: 'x' :: ']' :: ' ' :: (t ++ ' ' :: '(' :: (id ++ [')'])) := by
        have h0 : toListItem ⟨some id, some t, none, some Status.closed, none, none, none⟩
            = compactJoinSpace [some ("-".data), some ("[x]".data), some t,
                some ('(' :: (id ++ [')']))] := rfl
        rw [h0]
        exact compactJoinSpace_four ("[x]".data) t ('(' :: (id ++ [')'])) (by decide) htne (by simp)
      have hnl := line_no_nl 'x' t id (by decide) htnl hidnl
      refine ⟨?_, ?_, ?_, ?_, ?_⟩
      · intro acc
        rw [hrep, splitNl_no_nl _ hnl, List.foldl_cons, List.foldl_nil,
          stepLine_issueLine acc 'x' t id (Or.inl rfl) htne htp hth htl hidne hidw]
        rfl
      · rw [hrep, splitNl_no_nl _ hnl]
        intro l hl
        obtain rfl := List.mem_singleton.mp hl
        exact hash_false_dash _
      · exact ⟨_, hrep⟩
      · exact ⟨')', by rw [hrep]; exact line_getLast 'x' t id, by decide⟩
      · rfl
    · have hdm2 : (decide (2 ≤ d.length) && !(d.contains '\n') &&
          (match d.head? with | some c => !isWs c | none => false) &&
          (match d.getLast? with | some c => !isWs c | none => false)) = true := hdm
      simp only [Bool.and_eq_true] at hdm2
      obtain ⟨⟨⟨hd1, hd2⟩, hd3⟩, hd4⟩ := hdm2
      have hd1' : 2 ≤ d.length := by simpa using hd1
      have hdne : ¬ d = [] := by
        intro hh
        rw [hh] at hd1'
        exact absurd hd1' (by decide)
      have hdnl : '\n' ∉ d := contains_false d '\n' (by simpa using hd2)
      have hdh := head_false_of_match d hd3
      have hdl := last_false_of_match d hd4
      have hrep : toListItem ⟨some id, some t, some d, some Status.closed, none, none, none⟩
          = ('-' :: ' ' :: '[' :: 'x' :: ']' :: ' ' :: (t ++ ' ' :: '(' :: (id ++ [')'])))
            ++ '\n' :: '\t' :: '-' :: ' ' :: d := by
        have h0 : toListItem ⟨some id, some t, some d, some Status.closed, none, none, none⟩
            = (if (!d.isEmpty) = true
                then compactJoinSpace [some ("-".data), some ("[x]".data), some t,
                  some ('(' :: (id ++ [')']))] ++ '\n' :: '\t' :: '-' :: ' ' :: d
                else compactJoinSpace [some ("-".data), some ("[x]".data), some t,
                  some ('(' :: (id ++ [')']))]) := rfl
        rw [h0, if_pos (show (!d.isEmpty) = true by simpa using hdne)]
        exact congrArg (fun z => z ++ '\n' :: '\t' :: '-' :: ' ' :: d)
          (compactJoinSpace_four ("[x]".data) t ('(' :: (id ++ [')'])) (by decide) htne (by simp))
      have hnl := line_no_nl 'x' t id (by decide) htnl hidnl
      have hnd := descline_no_nl d hdnl
      refine ⟨?_, ?_, ?_, ?_, ?_⟩
      · intro acc
        rw [hrep, splitNl_append_nl, splitNl_no_nl _ hnl, splitNl_no_nl _ hnd,
          List.singleton_append, List.foldl_cons, List.foldl_cons, List.foldl_nil,
          stepLine_issueLine acc 'x' t id (Or.inl rfl) htne htp hth htl hidne hidw,
          stepLine_descLine _ acc d hd1' hdh]
        rfl
      · rw [hrep, splitNl_append_nl, splitNl_no_nl _ hnl, splitNl_no_nl _ hnd,
          List.singleton_append]
        intro l hl
        rcases List.mem_cons.mp hl with rfl | hl2
        · exact hash_false_dash _
        · obtain rfl := List.mem_singleton.mp hl2
          exact hash_false_tab _
      · exact ⟨' ' :: '[' :: 'x' :: ']' :: ' ' :: (t ++ ' ' :: '(' :: (id ++ [')']))
            ++ '\n' :: '\t' :: '-' :: ' ' :: d, by rw [hrep]; rfl⟩
      · obtain ⟨c, hc⟩ : ∃ c, d.getLast? = some c := by
          have hs : d.getLast?.isSome = true := List.getLast?_isSome.mpr hdne
          exact Option.isSome_iff_exists.mp hs
        refine ⟨c, ?_, hdl c hc⟩
        rw [hrep, List.getLast?_append_of_ne_nil _ (by simp),
          show ('\n' :: '\t' :: '-' :: ' ' :: d : Text) = ['\n', '\t', '-', ' '] ++ d from rfl,
          List.getLast?_append_of_ne_nil _ hdne, hc]
      · exact congrArg
          (fun z => Issue.mk (some id) (some t) z (some Status.closed) none none none)
          (congrArg some (trim_eq_self d hdh hdl))

theorem takeWhile_eq_self_of_all {α : Type} (p : α → Bool) :
    ∀ l : List α, (∀ x ∈ l, p x = true) → l.takeWhile p = l
  | [], _ => rfl
  | a :: as, h => by
    rw [List.takeWhile_cons, h a (by simp), if_pos rfl,
      takeWhile_eq_self_of_all p as (fun x hx => h x (by simp [hx]))]

theorem foldBlocks : ∀ (L : List Issue), (∀ i ∈ L, validIssue i = true) →
    ∀ acc, ((L.map toListItem).flatMap splitNl).foldl stepLine acc = L.reverse ++ acc
  | [], _, acc => by simp
  | a :: as, hv, acc => by
    rw [List.map_cons, List.flatMap_cons, List.foldl_append,
      (block_of_valid a (hv a (by simp))).1 acc,
      foldBlocks as (fun i hi => hv i (by simp [hi])) (a :: acc)]
    simp

theorem map_adjust_id : ∀ (L : List Issue), (∀ i ∈ L, validIssue i = true) →
    L.map (fun i => ({ i with description := i.description.map trim,
                              milestoneId := (none : Option Milestone).bind (fun x => x.id),
                              projectId := (none : Option Project).bind (fun x => x.id) }
      : Issue)) = L
  | [], _ => rfl
  | a :: as, hv => by
    rw [List.map_cons, map_adjust_id as (fun i hi => hv i (by simp [hi]))]
    exact congrArg (fun z => z :: as) ((block_of_valid a (hv a (by simp))).2.2.2.2)

theorem getIssues_of_section (n : Note) (sec : Text)
    (hs : getSection n.content ("Issues".data) = some sec) (hne : sec.isEmpty = false) :
    getIssues n = ((splitNl sec).foldl stepLine []).reverse.map (fun i =>
      { i with description := i.description.map trim,
               milestoneId := (getTrackedMilestone n).bind (fun x => x.id),
               projectId := (getTrackedProject n).bind (fun x => x.id) }) := by
  have h0 : getIssues n = (match getSection n.content ("Issues".data) with
    | none => ([] : List Issue)
    | some s =>
      if s.isEmpty then []
      else ((splitNl s).foldl stepLine []).reverse.map (fun i =>
        { i with description := i.description.map trim,
                 milestoneId := (getTrackedMilestone n).bind (fun x => x.id),
                 projectId := (getTrackedProject n).bind (fun x => x.id) })) := rfl
  rw [h0, hs]
  show (if sec.isEmpty = true then ([] : List Issue)
      else ((splitNl sec).foldl stepLine []).reverse.map (fun i =>
        { i with description := i.description.map trim,
                 milestoneId := (getTrackedMilestone n).bind (fun x => x.id),
                 projectId := (getTrackedProject n).bind (fun x => x.id) })) = _
  rw [hne]
  simp only [Bool.false_eq_true, if_false]

/-- C5 (amended): rendering an issue list under the `Issues` heading and
re-parsing it is the identity on the class of issues the grammar stores
faithfully: a non-empty word-character id, a non-empty single-line title
without `(` and without outer whitespace, a definite status, no reason or
parent ids, and an optional single-line trimmed description of length at
least two.  Outside that class the round trip can change the list (see
the counterexample). -/
theorem render_parse_roundtrip (fn : Text) (L : List Issue)
    (hv : ∀ i ∈ L, validIssue i = true) :
    getIssues ⟨fn, renderIssuesUnderHeading L⟩ = L := by
  rcases L with _ | ⟨a, as⟩
  · rfl
  have hva := block_of_valid a (hv a (by simp))
  obtain ⟨x', hx'⟩ := hva.2.2.1
  have hh : (joinNl ((a :: as).map toListItem)).head? = some '-' := by
    rw [List.map_cons, hx']
    exact joinNl_head?_cons '-' x' _
  obtain ⟨b, hb⟩ : ∃ b, (a :: as).getLast? = some b :=
    Option.isSome_iff_exists.mp (List.getLast?_isSome.mpr (by simp))
  have hvb := block_of_valid b (hv b (List.mem_of_mem_getLast? hb))
  obtain ⟨c0, hc0, hc0w⟩ := hvb.2.2.2.1
  obtain ⟨xb, hxb⟩ := hvb.2.2.1
  have hblast : ((a :: as).map toListItem).getLast? = some (toListItem b) := by
    rw [List.getLast?_map, hb]
    rfl
  have hjl : (joinNl ((a :: as).map toListItem)).getLast? = (toListItem b).getLast? :=
    joinNl_getLast?_of_last _ (toListItem b) hblast (by rw [hxb]; simp)
  have hsplitJ : splitNl (joinNl ((a :: as).map toListItem))
      = ((a :: as).map toListItem).flatMap splitNl :=
    splitNl_joinNl_flat _ (by simp)
  have hnohash : ∀ l ∈ ((a :: as).map toListItem).flatMap splitNl,
      isHashSpaceLine l = false := by
    intro l hl
    rw [List.mem_flatMap] at hl
    obtain ⟨bb, hbb, hlb⟩ := hl
    rw [List.mem_map] at hbb
    obtain ⟨i, hiL, rfl⟩ := hbb
    exact (block_of_valid i (hv i hiL)).2.1 l hlb
  have hls : splitNl (renderIssuesUnderHeading (a :: as))
      = ("## Issues".data) :: ((a :: as).map toListItem).flatMap splitNl := by
    rw [show renderIssuesUnderHeading (a :: as)
        = "## Issues".data ++ '\n' :: joinNl ((a :: as).map toListItem) from rfl,
      splitNl_append_nl, splitNl_no_nl ("## Issues".data) (by decide), hsplitJ,
      List.singleton_append]
  have hfind : (("## Issues".data :: ((a :: as).map toListItem).flatMap splitNl).findIdx?
      (isHeadingLine ("Issues".data))) = some 0 :=
    findIdx?_split (isHeadingLine ("Issues".data)) [] ("## Issues".data)
      (((a :: as).map toListItem).flatMap splitNl) 0 (by intro y hy; simp at hy) (by decide)
  have hsec : getSection (renderIssuesUnderHeading (a :: as)) ("Issues".data)
      = some (joinNl ((a :: as).map toListItem)) := by
    have h0 : getSection (renderIssuesUnderHeading (a :: as)) ("Issues".data)
        = (match (splitNl (renderIssuesUnderHeading (a :: as))).findIdx?
              (isHeadingLine ("Issues".data)) with
          | none => none
          | some i => some (trim (joinNl
              (((splitNl (renderIssuesUnderHeading (a :: as))).drop (i + 1)).takeWhile
                (fun l => !isHashSpaceLine l))))) := rfl
    rw [h0, hls, hfind]
    show some (trim (joinNl (((("## Issues".data)
        :: ((a :: as).map toListItem).flatMap splitNl).drop (0 + 1)).takeWhile
          (fun l => !isHashSpaceLine l)))) = _
    rw [show (("## Issues".data :: ((a :: as).map toListItem).flatMap splitNl).drop (0 + 1))
        = ((a :: as).map toListItem).flatMap splitNl from rfl,
      takeWhile_eq_self_of_all (fun l => !isHashSpaceLine l)
        (((a :: as).map toListItem).flatMap splitNl)
        (fun l hl => by simp [hnohash l hl]),
      joinNl_flatMap_splitNl,
      trim_eq_self _
        (fun c hc => by
          rw [hh] at hc
          injection hc with h2
          rw [← h2]
          rfl)
        (fun c hc => by
          rw [hjl, hc0] at hc
          injection hc with h2
          rw [← h2]
          exact hc0w)]
  have hne : (joinNl ((a :: as).map toListItem)).isEmpty = false := by
    cases hjoin : joinNl ((a :: as).map toListItem) with
    | nil => rw [hjoin] at hh; exact Option.noConfusion hh
    | cons c cs => rfl
  rw [getIssues_of_section ⟨fn, renderIssuesUnderHeading (a :: as)⟩
      (joinNl ((a :: as).map toListItem)) hsec hne,
    hsplitJ, foldBlocks (a :: as) hv [], List.append_nil, List.reverse_reverse,
    show getTrackedMilestone ⟨fn, renderIssuesUnderHeading (a :: as)⟩ = none from rfl,
    show getTrackedProject ⟨fn, renderIssuesUnderHeading (a :: as)⟩ = none from rfl]
  exact map_adjust_id (a :: as) hv

/-- Witness for C5 (amended): a concrete two-element list (an open issue
and a closed one carrying a description) satisfies the grammar class and
survives the render/parse round trip. -/
theorem render_parse_roundtrip_witness :
    (∀ i ∈ ([{ id := some ("1".data), title := some ("A".data),
               status := some Status.open' },
             { id := some ("2".data), title := some ("Fix it".data),
               description := some ("do it".data),
               status := some Status.closed }] : List Issue), validIssue i = true) ∧
      getIssues ⟨"m.md".data, renderIssuesUnderHeading
          [{ id := some ("1".data), title := some ("A".data), status := some Status.open' },
           { id := some ("2".data), title := some ("Fix it".data),
             description := some ("do it".data), status := some Status.closed }]⟩
        = [{ id := some ("1".data), title := some ("A".data), status := some Status.open' },
           { id := some ("2".data), title := some ("Fix it".data),
             description := some ("do it".data), status := some Status.closed }] :=
  ⟨by decide, render_parse_roundtrip ("m.md".data) _ (by decide)⟩

/-- C5 counterexample: an issue with the empty-string id uses only the
fields the claim allows (id, title, status), yet its rendered line keeps a
literal `()` suffix (lodash `compact` drops only falsy parts and `"()"` is
truthy), which the parser folds into the title: the round trip returns
title `B ()` instead of `B`, so the claimed unrestricted round trip
fails. -/
theorem render_parse_counterexample :
    getIssues ⟨"m.md".data, renderIssuesUnderHeading
        [{ id := some [], title := some ("B".data), status := some Status.open' }]⟩
      ≠ [{ id := some [], title := some ("B".data), status := some Status.open' }] := by
  decide

end ObsidianSync
